import Mathlib

/-! ## mksnapshot: the snapshot writer

A shallow embedding of `src/mksnapshot.cc` (the V8 snapshot generator): the
`SnapshotWriter` class, which turns the two serialized byte streams into a
generated C++ source file and two optional raw side files; the byte sink
`ListSnapshotSink`; the working buffer of `BZip2Compressor`; `DumpException`;
and, of `main`, the usage check, the loop that reads the extra code and the
last block, which sets up the writer.

Conventions of the embedding.

* A `char` of an `i::List<char>` is kept as its 8-bit pattern, a `Fin 256`;
  `static_cast<unsigned char>(c)` is then the value of the pattern.
* Text written with `fprintf` is a `List Char`; every `fprintf` of the source
  is one append to the text of the stream.
* A `FILE*` is an optional handle (`none` is `NULL`) into the streams of the
  `World`; `exit(1)` ends a run with the world as it is at that moment.
-/

namespace Mksnapshot

/-! ## Bytes, streams and the process state -/

/-- One `char`, as its 8-bit pattern. -/
abbrev CChar := Fin 256

/-- The conversion `static_cast<unsigned char>(c)`. -/
def toUChar (c : CChar) : Nat := c.val

/-- The conversion `%u` of `printf`: an unsigned number in decimal. -/
def fmtU (n : Nat) : List Char := Nat.toDigits 10 n

/-- The conversion `%d` of `printf`: a signed number in decimal. -/
def fmtD (i : Int) : List Char :=
  if i < 0 then '-' :: Nat.toDigits 10 i.natAbs else Nat.toDigits 10 i.toNat

/-- A binary output stream: the bytes it holds, and how many more bytes the
device behind it accepts (a full device makes `fwrite` come back short). -/
structure FILE where
  bytes : List CChar
  room : Nat
deriving DecidableEq, Repr

/-- The call `fwrite(data, 1, length, f)`: as many bytes as the device takes
are appended, and their number is returned. -/
def fwrite (data : List CChar) (f : FILE) : Nat × FILE :=
  let written := min data.length f.room
  (written, { bytes := f.bytes ++ data.take written, room := f.room - written })

/-- The two streams that `SetRawFiles` opens. -/
inductive Handle where
  | raw
  | rawContext
deriving DecidableEq, Repr

/-- Everything a run of the writer can change: the text of the generated file
behind `fp_`, the two raw streams, what `i::PrintF` has printed, and the
state of the compressor object (of type `σ`). -/
structure World (σ : Type) where
  fp : List Char
  rawStream : FILE
  rawContextStream : FILE
  stdout : List Char
  comp : σ
deriving DecidableEq, Repr

/-- The stream behind a handle. -/
def World.stream {σ : Type} (w : World σ) : Handle → FILE
  | .raw => w.rawStream
  | .rawContext => w.rawContextStream

/-- Replace the stream behind a handle. -/
def World.setStream {σ : Type} (w : World σ) (h : Handle) (f : FILE) : World σ :=
  match h with
  | .raw => { w with rawStream := f }
  | .rawContext => { w with rawContextStream := f }

/-- One `fprintf(fp_, ...)`: the text is appended to the generated file. -/
def World.fprintf {σ : Type} (w : World σ) (text : List Char) : World σ :=
  { w with fp := w.fp ++ text }

/-- How a member function ends: it returns, or the process has called `exit`. -/
inductive Outcome (σ : Type) where
  | done (w : World σ)
  | exit (status : Int) (w : World σ)
deriving DecidableEq, Repr

/-- The abstract class `Compressor`: `Compress` reports success and may change
the object, `output` reads the buffer the object then holds. -/
structure Compressor (σ : Type) where
  Compress : σ → List CChar → Bool × σ
  output : σ → List CChar

/-- The data members of `SnapshotWriter` (`fp_` is the text `World.fp`). -/
structure SnapshotWriter (σ : Type) where
  raw_file_ : Option Handle
  raw_context_file_ : Option Handle
  compressor_ : Option (Compressor σ)
  omit_ : Bool

/-- The pointer `data_to_be_written`: it is `&source_data` or it is
`&compressed_data`, a local list filled from the compressor. -/
inductive DataPtr where
  | source_data
  | compressed_data (contents : List CChar)
deriving DecidableEq, Repr

/-- The list a `data_to_be_written` pointer points to. -/
def DataPtr.deref (source_data : List CChar) : DataPtr → List CChar
  | .source_data => source_data
  | .compressed_data contents => contents

/-! ## SnapshotWriter -/

/-- The body of the `for` loop of `WriteSnapshotData`, from index `i` on. -/
def WriteSnapshotData.loop : Nat → List CChar → List Char
  | _, [] => []
  | i, c :: rest =>
    (if i &&& 0x1f = 0x1f then "\n".toList else []) ++
    (if i > 0 then ",".toList else []) ++
    fmtU (toUChar c) ++
    WriteSnapshotData.loop (i + 1) rest

/-- The text `WriteSnapshotData(data)` prints. -/
def WriteSnapshotData (data : List CChar) : List Char :=
  WriteSnapshotData.loop 0 data ++ "\n".toList

/-- The first `fprintf` of the three-argument `WriteData`. -/
def dataOpenText (pfx : String) : List Char :=
  "const byte Snapshot::".toList ++ pfx.toList ++ "data_[] = \x7b\n".toList

/-- The text printed when the table is closed. -/
def dataCloseText : List Char := "\x7d;\n".toList

/-- The declaration of `size_`. -/
def sizeText (pfx : String) (size : Int) : List Char :=
  "const int Snapshot::".toList ++ pfx.toList ++ "size_ = ".toList ++ fmtD size ++ ";\n".toList

/-- The declaration of `raw_data_` as an alias of `data_`. -/
def rawDataAliasText (pfx : String) : List Char :=
  "const byte* Snapshot::".toList ++ pfx.toList ++ "raw_data_ = Snapshot::".toList ++
    pfx.toList ++ "data_;\n".toList

/-- The declaration of `raw_size_` as an alias of `size_`. -/
def rawSizeAliasText (pfx : String) : List Char :=
  "const int Snapshot::".toList ++ pfx.toList ++ "raw_size_ = Snapshot::".toList ++
    pfx.toList ++ "size_;\n".toList

/-- The declaration of `raw_data_` as `NULL`. -/
def rawDataNullText (pfx : String) : List Char :=
  "const byte* Snapshot::".toList ++ pfx.toList ++ "raw_data_ = NULL;\n".toList

/-- The declaration of `raw_size_` as a literal number. -/
def rawSizeText (pfx : String) (size : Int) : List Char :=
  "const int Snapshot::".toList ++ pfx.toList ++ "raw_size_ = ".toList ++ fmtD size ++
    ";\n".toList

/-- The three-argument `WriteData(prefix, source_data, data_to_be_written)`:
the text it prints to `fp_`. -/
def WriteDataText (omit_ : Bool) (pfx : String) (source_data : List CChar)
    (data_to_be_written : DataPtr) : List Char :=
  dataOpenText pfx ++
  (if !omit_ then WriteSnapshotData (data_to_be_written.deref source_data) else []) ++
  dataCloseText ++
  sizeText pfx (data_to_be_written.deref source_data).length ++
  (if data_to_be_written = DataPtr.source_data ∧ !omit_ then
    rawDataAliasText pfx ++ rawSizeAliasText pfx
  else
    rawDataNullText pfx ++ rawSizeText pfx source_data.length) ++
  "\n".toList

/-- The member `MaybeWriteRawFile(data, raw_file)`; `data` is never `NULL` at
its only call, under `ASSERT(data_to_be_written)`. -/
def MaybeWriteRawFile {σ : Type} (data : List CChar) (raw_file : Option Handle)
    (w : World σ) : Outcome σ :=
  match raw_file with
  | none => .done w
  | some h =>
    let r := fwrite data (w.stream h)
    let w1 := w.setStream h r.2
    if r.1 ≠ data.length then
      .exit 1 { w1 with stdout := w1.stdout ++ "Writing raw file failed.. Aborting.\n".toList }
    else
      .done w1

/-- The tail of the first `WriteData`, from `ASSERT(data_to_be_written)` on. -/
def WriteData.finish {σ : Type} (wr : SnapshotWriter σ) (pfx : String)
    (source_data : List CChar) (raw_file : Option Handle)
    (data_to_be_written : DataPtr) (w : World σ) : Outcome σ :=
  match MaybeWriteRawFile (data_to_be_written.deref source_data) raw_file w with
  | .exit status w1 => .exit status w1
  | .done w1 => .done (w1.fprintf (WriteDataText wr.omit_ pfx source_data data_to_be_written))

/-- The member `WriteData(prefix, source_data, raw_file)`. -/
def WriteData {σ : Type} (wr : SnapshotWriter σ) (pfx : String)
    (source_data : List CChar) (raw_file : Option Handle) (w : World σ) : Outcome σ :=
  match wr.compressor_ with
  | none => WriteData.finish wr pfx source_data raw_file .source_data w
  | some c =>
    let r := c.Compress w.comp source_data
    let w1 := { w with comp := r.2 }
    if r.1 then
      WriteData.finish wr pfx source_data raw_file (.compressed_data (c.output r.2)) w1
    else
      .exit 1 { w1 with stdout := w1.stdout ++ "Compression failed. Aborting.\n".toList }

/-- The text `WriteFilePrefix` prints. -/
def filePrefixText : List Char :=
  "// Autogenerated snapshot file. Do not edit.\n\n".toList ++
  "#include \"v8.h\"\n".toList ++
  "#include \"platform.h\"\n\n".toList ++
  "#include \"snapshot.h\"\n\n".toList ++
  "namespace v8 \x7b\n".toList ++
  "namespace internal \x7b\n\n".toList

/-- The member `WriteFilePrefix`. -/
def WriteFilePrefix {σ : Type} (w : World σ) : World σ :=
  w.fprintf filePrefixText

/-- The text `WriteFileSuffix` prints. -/
def fileSuffixText : List Char :=
  "\x7d  // namespace internal\n".toList ++
  "\x7d  // namespace v8\n".toList

/-- The member `WriteFileSuffix`. -/
def WriteFileSuffix {σ : Type} (w : World σ) : World σ :=
  w.fprintf fileSuffixText

/-- Modelled from the spec: the enumeration of the memory regions, which a
header outside these sources declares; the seven identifiers are the ones
`WriteMeta` names (young generation, old-pointer, old-data, code, map, cell,
property-cell). -/
inductive AllocationSpace where
  | NEW_SPACE
  | OLD_POINTER_SPACE
  | OLD_DATA_SPACE
  | CODE_SPACE
  | MAP_SPACE
  | CELL_SPACE
  | PROPERTY_CELL_SPACE
deriving DecidableEq, Repr

/-- What the writer reads of an `i::Serializer`: the member function
`CurrentAllocationAddress(space)`. -/
structure Serializer where
  CurrentAllocationAddress : AllocationSpace → Int

/-- The text `WriteSizeVar(ser, prefix, name, space)` prints. -/
def WriteSizeVar (ser : Serializer) (pfx : String) (name : String)
    (space : AllocationSpace) : List Char :=
  "const int Snapshot::".toList ++ pfx.toList ++ name.toList ++ "_space_used_ = ".toList ++
    fmtD (ser.CurrentAllocationAddress space) ++ ";\n".toList

/-- The text `WriteMeta(prefix, ser)` prints. -/
def WriteMeta (pfx : String) (ser : Serializer) : List Char :=
  WriteSizeVar ser pfx "new" .NEW_SPACE ++
  WriteSizeVar ser pfx "pointer" .OLD_POINTER_SPACE ++
  WriteSizeVar ser pfx "data" .OLD_DATA_SPACE ++
  WriteSizeVar ser pfx "code" .CODE_SPACE ++
  WriteSizeVar ser pfx "map" .MAP_SPACE ++
  WriteSizeVar ser pfx "cell" .CELL_SPACE ++
  WriteSizeVar ser pfx "property_cell" .PROPERTY_CELL_SPACE ++
  "\n".toList

/-- The member `WriteSnapshot(snapshot_data, serializer, context_snapshot_data,
context_serializer)`. -/
def WriteSnapshot {σ : Type} (wr : SnapshotWriter σ)
    (snapshot_data : List CChar) (serializer : Serializer)
    (context_snapshot_data : List CChar) (context_serializer : Serializer)
    (w : World σ) : Outcome σ :=
  match WriteData wr "" snapshot_data wr.raw_file_ ( WriteFilePrefix w) with
  | .exit status w1 => .exit status w1
  | .done w1 =>
    match WriteData wr "context_" context_snapshot_data wr.raw_context_file_ w1 with
    | .exit status w2 => .exit status w2
    | .done w2 =>
      .done ( WriteFileSuffix
        ((w2.fprintf (WriteMeta "context_" context_serializer)).fprintf
          (WriteMeta "" serializer)))

/-! ## The usage check of `main` -/

/-- What `i::FlagList::SetFlagsFromCommandLine(&argc, argv, true)` leaves
behind: its return value, the updated `argc`, and the flag `FLAG_help`. -/
structure FlagParse where
  result : Int
  argc : Int
  FLAG_help : Bool
deriving DecidableEq, Repr

/-- The text `::printf("Usage: %s [flag] ... outfile\n", argv[0])` prints. -/
def usageText (argv0 : String) : List Char :=
  "Usage: ".toList ++ argv0.toList ++ " [flag] ... outfile\n".toList

/-- The usage check of `main`: `some (printed, status)` when `main` prints
the usage (followed by `helpText`, the output of `i::FlagList::PrintHelp()`)
and returns `status`; `none` when `main` goes on to build the snapshot. -/
def mainUsageCheck (argv0 : String) (helpText : List Char) (p : FlagParse) :
    Option (List Char × Int) :=
  if p.result > 0 ∨ p.argc ≠ 2 ∨ p.FLAG_help then
    some (usageText argv0 ++ helpText, if !p.FLAG_help then 1 else 0)
  else
    none

/-! ## Reading the generated table back -/

/-- Read a run of decimal digits, most significant first, onto `acc`. -/
def parseDigits : Nat → List Char → Option Nat
  | acc, [] => some acc
  | acc, ch :: cs =>
    if ch.isDigit then parseDigits (10 * acc + (ch.toNat - 48)) cs else none

/-- Read one decimal number: a non-empty run of digits. -/
def parseDecimal (cs : List Char) : Option Nat :=
  if cs = [] then none else parseDigits 0 cs

/-- Cut a text at its commas. -/
def splitCommas : List Char → List (List Char)
  | [] => [[]]
  | ch :: cs =>
    if ch = ',' then [] :: splitCommas cs
    else
      match splitCommas cs with
      | [] => [[ch]]
      | field :: fields => (ch :: field) :: fields

/-- Read every field as a decimal number. -/
def parseFields : List (List Char) → Option (List Nat)
  | [] => some []
  | field :: fields =>
    match parseDecimal field, parseFields fields with
    | some n, some ns => some (n :: ns)
    | _, _ => none

/-- Remove the line breaks of a text. -/
def dropLineBreaks (text : List Char) : List Char :=
  text.filter (fun ch => ch != '\n')

/-- Read a text as a comma-separated list of decimal numbers, ignoring line
breaks. -/
def parseTable (text : List Char) : Option (List Nat) :=
  parseFields (splitCommas (dropLineBreaks text))

/-- The literal entries of an array initializer: none when there is nothing
but line breaks between the braces, the comma-separated numbers otherwise. -/
def tableEntries (text : List Char) : Option (List Nat) :=
  if dropLineBreaks text = [] then some [] else parseTable text

/-- The text between the first opening brace of a text and the closing brace
that follows it. -/
def betweenBraces (text : List Char) : List Char :=
  ((text.dropWhile (fun ch => ch != '\x7b')).drop 1).takeWhile (fun ch => ch != '\x7d')

/-- Count the numbers on each line of a text, line by line: `k` numbers have
been seen on the current line, and `inNumber` tells whether the character just
read was a digit. A line ends at a line break; text after the last line break
counts as a line when it holds a number. -/
def valuesPerLine.scan : Nat → Bool → List Char → List Nat
  | k, _, [] => if k = 0 then [] else [k]
  | k, inNumber, ch :: cs =>
    if ch = '\n' then k :: valuesPerLine.scan 0 false cs
    else if ch.isDigit then valuesPerLine.scan (if inNumber then k else k + 1) true cs
    else valuesPerLine.scan k false cs

/-- The number of values on each line of a text. -/
def valuesPerLine (text : List Char) : List Nat :=
  valuesPerLine.scan 0 false text

/-- The line lengths the loop of `WriteSnapshotData` produces from index `i`
on, with `k` values on the current line and `m` entries left: a line ends
before every index whose low five bits are all set. -/
def lineLengths : Nat → Nat → Nat → List Nat
  | _, k, 0 => [k]
  | i, k, m + 1 =>
    if i % 32 = 31 then k :: lineLengths (i + 1) 1 m else lineLengths (i + 1) (k + 1) m

/-! ## Concrete runs used as examples -/

/-- A world with nothing written and two raw streams with room for 100 bytes;
the compressor object is a call counter. -/
def emptyWorld : World Nat :=
  { fp := [], rawStream := ⟨[], 100⟩, rawContextStream := ⟨[], 100⟩, stdout := [], comp := 0 }

/-- A compressor that always succeeds and whose output is the single byte 9. -/
def constCompressor : Compressor Nat :=
  { Compress := fun s _ => (true, s + 1), output := fun _ => [9] }

/-- A compressor that succeeds on its first call only; its output is the
single byte 9. -/
def onceCompressor : Compressor Nat :=
  { Compress := fun s _ => (s == 0, s + 1), output := fun _ => [9] }

/-- A writer with both raw files open and the given compressor and omit flag. -/
def rawWriter (compressor : Option (Compressor Nat)) (omitFlag : Bool) : SnapshotWriter Nat :=
  { raw_file_ := some .raw, raw_context_file_ := some .rawContext,
    compressor_ := compressor, omit_ := omitFlag }

/-- A serializer that reports 5 bytes for every region. -/
def fiveSerializer : Serializer := ⟨fun _ => 5⟩

/-- The world after `WriteData` has written the buffer `[1, 2, 3]` for the
main stream, without compressor, from `emptyWorld`. -/
def rawRunWorld : World Nat :=
  { emptyWorld with
    fp := WriteDataText false "" [1, 2, 3] .source_data,
    rawStream := ⟨[1, 2, 3], 97⟩ }

/-- The world in which `WriteSnapshot` exits when `onceCompressor` fails for
the context stream: the main stream `[1, 2, 3]` has been written already. -/
def partialWorld : World Nat :=
  { fp := filePrefixText ++ WriteDataText false "" [1, 2, 3] (.compressed_data [9]),
    rawStream := ⟨[9], 99⟩,
    rawContextStream := ⟨[], 100⟩,
    stdout := "Compression failed. Aborting.\n".toList,
    comp := 2 }

/-- A compressor whose `Compress` always fails. -/
def failingCompressor : Compressor Nat :=
  { Compress := fun s _ => (false, s + 1), output := fun _ => [] }

/-- A compressor that always succeeds and whose output is 30 bytes long. -/
def thirtyCompressor : Compressor Nat :=
  { Compress := fun s _ => (true, s + 1), output := fun _ => List.replicate 30 1 }

/-- A writer without raw files, with the given compressor and omit flag. -/
def plainWriter (compressor : Option (Compressor Nat)) (omitFlag : Bool) : SnapshotWriter Nat :=
  { raw_file_ := none, raw_context_file_ := none,
    compressor_ := compressor, omit_ := omitFlag }

/-- A source buffer of 40 bytes. -/
def fortyBytes : List CChar := List.replicate 40 7

/-! ## Which buffer is written -/

/-- The value of `data_to_be_written` when `WriteData` reaches its `ASSERT`:
`&source_data` without a compressor, `&compressed_data` (filled from
`output()` after the call of `Compress`) with one. -/
def dataToBeWritten {σ : Type} (wr : SnapshotWriter σ) (source_data : List CChar)
    (w : World σ) : DataPtr :=
  match wr.compressor_ with
  | none => .source_data
  | some c => .compressed_data (c.output (c.Compress w.comp source_data).2)

/-! ## BZip2Compressor -/

/-- A value brought into the range of a 32-bit `int`, wrapping around modulo
`2^32`. -/
def wrapInt32 (x : Int) : Int :=
  (x + 2147483648) % 4294967296 - 2147483648

/-- The length of the working buffer `BZip2Compressor::Compress` allocates for
an input of length `n`: `(input.length() * 101) / 100 + 1000` in `int`
arithmetic, the division rounding towards zero. -/
def BZip2Compressor.workingLength (n : Int) : Int :=
  wrapInt32 (Int.tdiv (wrapInt32 (n * 101)) 100 + 1000)

/-! ## ListSnapshotSink -/

/-- The conversion of an `int` to `char`: its low 8 bits. -/
def intToChar (byte : Int) : CChar :=
  Fin.ofNat (byte % 256).toNat

/-- Modelled from the spec: the member `Add` of `i::List<char>`, which a header
outside these sources declares; the buffer is an ordered, growable byte
sequence that is only appended to, so `Add` puts the element at the end. -/
def ListAdd (list : List CChar) (element : CChar) : List CChar :=
  list ++ [element]

/-- Modelled from the spec: the member `length` of `i::List<char>`, the number
of elements the list holds, as an `int`. -/
def ListLength (list : List CChar) : Int :=
  list.length

/-- The member `Put(byte, description)` of `ListSnapshotSink`:
`data_->Add(byte)`, the `int` being converted to the `char` that `Add` takes. -/
def ListSnapshotSink.Put (byte : Int) (_description : Option String)
    (data_ : List CChar) : List CChar :=
  ListAdd data_ (intToChar byte)

/-- The member `Position()` of `ListSnapshotSink`: `data_->length()`. -/
def ListSnapshotSink.Position (data_ : List CChar) : Int :=
  ListLength data_

/-- A sequence of `Put` calls, first call first. -/
def ListSnapshotSink.PutAll (calls : List (Int × Option String))
    (data_ : List CChar) : List CChar :=
  calls.foldl (fun data call => ListSnapshotSink.Put call.1 call.2 data) data_

/-! ## DumpException -/

/-- What `DumpException` reads of a `Message`. -/
structure Message where
  Get : String
  GetSourceLine : String
  GetLineNumber : Int
  GetStartColumn : Int
  GetEndColumn : Int

/-- The `for` loop of `DumpException` from column `i` on: one character per
column up to the end column, a space before the start column and a caret from
it on. -/
def DumpException.loop (message : Message) (i : Int) : List Char :=
  if i ≤ message.GetEndColumn then
    (if i < message.GetStartColumn then ' ' else '^') :: DumpException.loop message (i + 1)
  else
    []
termination_by (message.GetEndColumn + 1 - i).toNat
decreasing_by omega

/-- The marker line of `DumpException`, without its line break. -/
def DumpException.markers (message : Message) : List Char :=
  DumpException.loop message 0

/-- The text `DumpException(message)` prints to `stderr`. -/
def DumpException (message : Message) : List Char :=
  message.Get.toList ++ " at line ".toList ++ fmtD message.GetLineNumber ++ "\n".toList ++
  message.GetSourceLine.toList ++ "\n".toList ++
  DumpException.markers message ++
  "\n".toList

/-- A message with start column 2 and end column 4. -/
def exampleMessage : Message :=
  { Get := "SyntaxError", GetSourceLine := "a b c", GetLineNumber := 1,
    GetStartColumn := 2, GetEndColumn := 4 }

/-! ## Reading the extra code in `main` -/

/-- How the read loop of `main` stands: it has left the loop with the bytes
stored in `chars`, it has called `exit`, or it is still in the loop after the
given number of iterations, about to read at index `i`. -/
inductive ReadOutcome where
  | finished (chars : List CChar)
  | exit (status : Int) (stderr : List Char)
  | looping (i : Int) (chars : List CChar)
deriving DecidableEq, Repr

/-- The text printed when a read has failed. -/
def readFailedText (name : String) (errno : Int) : List Char :=
  "Failed to read '".toList ++ name.toList ++ "': errno ".toList ++ fmtD errno ++ "\n".toList

/-- The loop `for (int i = 0; i < size;)` of `main`, run for at most `fuel`
iterations. `content` is the file, read from position `i` on (the position
after `rewind` and `i` bytes read); `deliver call requested` is the number of
bytes the device hands over at the call number `call` of `fread` when
`requested` bytes are asked for, cut down to what was requested and to what
is left of the file. The bytes are stored at `chars[i]` onwards. -/
def readLoop (name : String) (errno : Int) (deliver : Nat → Nat → Nat)
    (content : List CChar) (size : Int) : Nat → Nat → Int → List CChar → ReadOutcome
  | 0, _, i, chars => .looping i chars
  | fuel + 1, call, i, chars =>
    if i < size then
      let requested := (size - i).toNat
      let count := min (min (deliver call requested) requested) (content.length - i.toNat)
      let read := wrapInt32 count
      if read < 0 then
        .exit 1 (readFailedText name errno)
      else
        readLoop name errno deliver content size fuel (call + 1) (i + read)
          (chars ++ (content.drop i.toNat).take count)
    else
      .finished chars

/-- A device that never hands over a byte. -/
def stalledDevice : Nat → Nat → Nat := fun _ _ => 0

/-! ## The writer that `main` sets up -/

/-- The world in which a member function has ended. -/
def Outcome.world {σ : Type} : Outcome σ → World σ
  | .done w => w
  | .exit _ w => w

/-- A text of letters, digits and underscores, as a name is made of. -/
def isIdentifierText (pfx : String) : Prop :=
  ∀ ch ∈ pfx.toList, ch.isAlphanum = true ∨ ch = '_'

/-- The text after the first closing brace of a text. -/
def afterBrace (text : List Char) : List Char :=
  (text.dropWhile (fun ch => ch != '\x7d')).drop 1

/-- Cut a text at its line breaks. -/
def textLines : List Char → List (List Char)
  | [] => [[]]
  | ch :: cs =>
    if ch = '\n' then [] :: textLines cs
    else
      match textLines cs with
      | [] => [[ch]]
      | line :: lines => (ch :: line) :: lines

/-- What is left of a line after the given beginning, when the line begins
so. -/
def dropHead : List Char → List Char → Option (List Char)
  | [], line => some line
  | _ :: _, [] => none
  | k :: key, ch :: line => if k = ch then dropHead key line else none

/-- The initializer of the first line that begins with `key`: the text
between the key and the semicolon that ends the line. -/
def findInitializer (key : List Char) : List (List Char) → Option (List Char)
  | [] => none
  | line :: lines =>
    match dropHead key line with
    | some rest => if rest.getLast? = some ';' then some rest.dropLast else none
    | none => findInitializer key lines

/-- The lines that follow the table in a text `WriteData` has printed. -/
def declarationLines (text : List Char) : List (List Char) :=
  textLines (afterBrace text)

/-- The beginning of the line that declares `size_`. -/
def sizeKey (pfx : String) : List Char :=
  "const int Snapshot::".toList ++ pfx.toList ++ "size_ = ".toList

/-- The beginning of the line that declares `raw_data_`. -/
def rawDataKey (pfx : String) : List Char :=
  "const byte* Snapshot::".toList ++ pfx.toList ++ "raw_data_ = ".toList

/-- The beginning of the line that declares `raw_size_`. -/
def rawSizeKey (pfx : String) : List Char :=
  "const int Snapshot::".toList ++ pfx.toList ++ "raw_size_ = ".toList

/-- The integer a text declares as `size_`: the decimal number of the line
`const int Snapshot::<prefix>size_ = <number>;`. -/
def readSize (pfx : String) (text : List Char) : Option Nat :=
  match findInitializer (sizeKey pfx) (declarationLines text) with
  | some initializer => parseDecimal initializer
  | none => none

/-- What `raw_data_` can be declared as: `NULL`, or the table `data_`. -/
inductive RawData where
  | null
  | data
deriving DecidableEq, Repr

/-- What a text declares `raw_data_` as: read off the line
`const byte* Snapshot::<prefix>raw_data_ = <initializer>;`. -/
def readRawData (pfx : String) (text : List Char) : Option RawData :=
  match findInitializer (rawDataKey pfx) (declarationLines text) with
  | some initializer =>
    if initializer = "NULL".toList then some .null
    else if initializer = "Snapshot::".toList ++ pfx.toList ++ "data_".toList then some .data
    else none
  | none => none

/-- What `raw_size_` can be declared as: the constant `size_`, or a number. -/
inductive RawSize where
  | size
  | literal (n : Nat)
deriving DecidableEq, Repr

/-- What a text declares `raw_size_` as: read off the line
`const int Snapshot::<prefix>raw_size_ = <initializer>;`. -/
def readRawSize (pfx : String) (text : List Char) : Option RawSize :=
  match findInitializer (rawSizeKey pfx) (declarationLines text) with
  | some initializer =>
    if initializer = "Snapshot::".toList ++ pfx.toList ++ "size_".toList then some .size
    else (parseDecimal initializer).map RawSize.literal
  | none => none

/-- The value the declaration of `raw_size_` denotes: its number, or the
number declared as `size_` when it is declared as `size_`. -/
def rawSizeValue (pfx : String) (text : List Char) : Option Nat :=
  match readRawSize pfx text with
  | some (.literal n) => some n
  | some .size => readSize pfx text
  | none => none

/-- The text a run has appended to the generated file. -/
def appendedText {σ : Type} (before after : World σ) : List Char :=
  after.fp.drop before.fp.length

/-- The world after `WriteData` has written `fortyBytes` for the main stream
without compressor and without raw file, from `emptyWorld`. -/
def fortyWorld : World Nat :=
  { emptyWorld with fp := WriteDataText false "" fortyBytes .source_data }

/-- The world after `WriteData` has written `fortyBytes`, compressed to 30
bytes by `thirtyCompressor`, from `emptyWorld`. -/
def thirtyWorld : World Nat :=
  { emptyWorld with
    fp := WriteDataText false "" fortyBytes (.compressed_data (List.replicate 30 1)),
    comp := 1 }

/-- The world after `WriteData` has written `fortyBytes` with omission on and
without compressor, under the name `context_`. -/
def omitWorld : World Nat :=
  { emptyWorld with fp := WriteDataText true "context_" fortyBytes .source_data }

/-- The world after `WriteData` has written `fortyBytes` with omission on,
compressed to 30 bytes by `thirtyCompressor`. -/
def omitThirtyWorld : World Nat :=
  { emptyWorld with
    fp := WriteDataText true "" fortyBytes (.compressed_data (List.replicate 30 1)),
    comp := 1 }

/-! ## Basic facts about the state -/

theorem stream_setStream {σ : Type} (w : World σ) (h : Handle) (f : FILE) :
    (w.setStream h f).stream h = f := by
  cases h <;> rfl

theorem fp_setStream {σ : Type} (w : World σ) (h : Handle) (f : FILE) :
    (w.setStream h f).fp = w.fp := by
  cases h <;> rfl

theorem MaybeWriteRawFile_none {σ : Type} (data : List CChar) (w : World σ) :
    MaybeWriteRawFile data none w = .done w := rfl

/-- A raw write that returns leaves the whole buffer in the stream and the
generated file as it was. -/
theorem MaybeWriteRawFile_done {σ : Type} (data : List CChar) (h : Handle)
    (w w1 : World σ) (hd : MaybeWriteRawFile data (some h) w = .done w1) :
    (w1.stream h).bytes = (w.stream h).bytes ++ data ∧ w1.fp = w.fp ∧
      data.length ≤ (w.stream h).room := by
  unfold MaybeWriteRawFile at hd
  simp only [fwrite] at hd
  split at hd
  · cases hd
  · rename_i hlen
    have hmin : min data.length (w.stream h).room = data.length := not_not.mp hlen
    injection hd with hw
    subst hw
    rw [stream_setStream, fp_setStream, hmin, List.take_length]
    exact ⟨rfl, rfl, by omega⟩

/-- A raw write never touches the generated file. -/
theorem MaybeWriteRawFile_fp {σ : Type} (data : List CChar) (rf : Option Handle)
    (w w1 : World σ) (hd : MaybeWriteRawFile data rf w = .done w1) : w1.fp = w.fp := by
  cases rf with
  | none => rw [MaybeWriteRawFile_none] at hd; injection hd with hw; rw [← hw]
  | some h => exact (MaybeWriteRawFile_done data h w w1 hd).2.1

/-- With room in the stream, the raw write returns. -/
theorem MaybeWriteRawFile_room {σ : Type} (data : List CChar) (h : Handle) (w : World σ)
    (hroom : data.length ≤ (w.stream h).room) :
    MaybeWriteRawFile data (some h) w =
      .done (w.setStream h ⟨(w.stream h).bytes ++ data, (w.stream h).room - data.length⟩) := by
  unfold MaybeWriteRawFile
  simp only [fwrite]
  have hmin : min data.length (w.stream h).room = data.length := min_eq_left hroom
  rw [hmin, List.take_length]
  simp

/-- What `WriteData.finish` leaves when it returns. -/
theorem finish_done {σ : Type} (wr : SnapshotWriter σ) (pfx : String) (B : List CChar)
    (rf : Option Handle) (ptr : DataPtr) (w w1 : World σ)
    (hd : WriteData.finish wr pfx B rf ptr w = .done w1) :
    w1.fp = w.fp ++ WriteDataText wr.omit_ pfx B ptr ∧
      ∀ h, rf = some h → (w1.stream h).bytes = (w.stream h).bytes ++ ptr.deref B := by
  unfold WriteData.finish at hd
  split at hd
  · cases hd
  · rename_i w2 hraw
    injection hd with hw
    subst hw
    refine ⟨?_, ?_⟩
    · simp only [World.fprintf]
      rw [MaybeWriteRawFile_fp _ _ _ _ hraw]
    · intro h hrf
      subst hrf
      have := (MaybeWriteRawFile_done _ _ _ _ hraw).1
      cases h <;> simpa [World.fprintf, World.stream] using this

/-- When the first `WriteData` returns, `Compress` (if there is a compressor)
has succeeded, the text of the three-argument `WriteData` for the selected
buffer has been appended to the generated file, and a configured raw stream
has received the selected buffer. -/
theorem WriteData_done {σ : Type} (wr : SnapshotWriter σ) (pfx : String) (B : List CChar)
    (rf : Option Handle) (w w1 : World σ) (hd : WriteData wr pfx B rf w = .done w1) :
    w1.fp = w.fp ++ WriteDataText wr.omit_ pfx B (dataToBeWritten wr B w) ∧
      (∀ h, rf = some h →
        (w1.stream h).bytes = (w.stream h).bytes ++ (dataToBeWritten wr B w).deref B) ∧
      (∀ c, wr.compressor_ = some c → (c.Compress w.comp B).1 = true) := by
  unfold WriteData at hd
  unfold dataToBeWritten
  cases hc : wr.compressor_ with
  | none =>
    rw [hc] at hd
    simp only at hd
    have := finish_done wr pfx B rf _ w w1 hd
    exact ⟨this.1, this.2, fun c hcc => by cases hcc⟩
  | some c =>
    rw [hc] at hd
    simp only at hd
    split at hd
    · rename_i hok
      have := finish_done wr pfx B rf _ _ w1 hd
      refine ⟨this.1, this.2, fun c1 hcc => ?_⟩
      injection hcc with hcc
      subst hcc
      exact hok
    · cases hd

/-! ## The raw side file -/

/-- C1, as stated, fails: with a compressor whose `Compress` succeeds with the
output `[9]`, `WriteData` for the source buffer `[1, 2, 3]` returns and the
raw stream holds `[9]`, the compressed bytes, not the source buffer. -/
theorem raw_file_gets_compressed_bytes :
    (constCompressor.Compress emptyWorld.comp [1, 2, 3]).1 = true ∧
    ∃ w1, WriteData (rawWriter (some constCompressor) false) "" [1, 2, 3] (some .raw)
        emptyWorld = .done w1 ∧
      (w1.stream .raw).bytes = [9] ∧ (w1.stream .raw).bytes ≠ [1, 2, 3] := by
  refine ⟨rfl, _, rfl, ?_, ?_⟩ <;> decide

/-- C1 (amended): when `WriteData` returns with a raw file configured, the
bytes it has appended to that raw stream are exactly the bytes of the buffer
`data_to_be_written` points to, in order: the source buffer when no compressor
is configured, the output of the compressor when one is configured (and has
succeeded). -/
theorem WriteData_raw_file_bytes {σ : Type} (wr : SnapshotWriter σ) (pfx : String)
    (B : List CChar) (h : Handle) (w w1 : World σ)
    (hd : WriteData wr pfx B (some h) w = .done w1) :
    (wr.compressor_ = none → (w1.stream h).bytes = (w.stream h).bytes ++ B) ∧
    (∀ c, wr.compressor_ = some c →
      (c.Compress w.comp B).1 = true ∧
      (w1.stream h).bytes = (w.stream h).bytes ++ c.output (c.Compress w.comp B).2) := by
  obtain ⟨-, hraw, hok⟩ := WriteData_done wr pfx B (some h) w w1 hd
  have hb := hraw h rfl
  refine ⟨fun hc => ?_, fun c hc => ⟨hok c hc, ?_⟩⟩
  · simpa [dataToBeWritten, hc, DataPtr.deref] using hb
  · simpa [dataToBeWritten, hc, DataPtr.deref] using hb

/-- The amended C1 at a concrete run: without a compressor the raw stream
receives the source buffer `[1, 2, 3]`. -/
theorem WriteData_raw_file_bytes_witness :
    WriteData (rawWriter none false) "" [1, 2, 3] (some .raw) emptyWorld =
        .done rawRunWorld ∧
    (rawRunWorld.stream .raw).bytes = (emptyWorld.stream .raw).bytes ++ [1, 2, 3] :=
  ⟨rfl, (WriteData_raw_file_bytes (rawWriter none false) "" [1, 2, 3] .raw emptyWorld
      rawRunWorld rfl).1 rfl⟩

/-! ## A failing compressor -/

/-- C2, as stated, fails: with a compressor that succeeds for the main stream
and fails for the context stream, `WriteSnapshot` exits with status 1 after
the data table of the main stream has been written to the generated file and
the (compressed) main stream to its raw file. -/
theorem compress_failure_leaves_partial_output :
    (onceCompressor.Compress 1 [4]).1 = false ∧
    WriteSnapshot (rawWriter (some onceCompressor) false) [1, 2, 3] fiveSerializer [4]
        fiveSerializer emptyWorld = .exit 1 partialWorld ∧
    partialWorld.fp =
      filePrefixText ++ WriteDataText false "" [1, 2, 3] (.compressed_data [9]) ∧
    partialWorld.rawStream.bytes = [9] ∧
    partialWorld.rawStream.bytes ≠ emptyWorld.rawStream.bytes := by
  refine ⟨rfl, rfl, rfl, rfl, ?_⟩
  decide

/-- C2 (amended): let a compressor be configured. If `Compress` returns false
for the main stream, `WriteSnapshot` exits with status 1 and at that moment
the generated file holds the file prefix only and no raw stream has been
written to. If `WriteData` returns for the main stream and `Compress` then
returns false for the context stream, `WriteSnapshot` exits with status 1 as
well, but the generated file already holds the data table of the main stream
(and the raw streams are as the main `WriteData` left them); nothing of the
context stream has been written. -/
theorem WriteSnapshot_compress_failure {σ : Type} (wr : SnapshotWriter σ)
    (c : Compressor σ) (main : List CChar) (ser : Serializer) (ctx : List CChar)
    (cser : Serializer) (w : World σ) (hc : wr.compressor_ = some c) :
    ((c.Compress w.comp main).1 = false →
      WriteSnapshot wr main ser ctx cser w =
        .exit 1 { w with
          fp := w.fp ++ filePrefixText,
          comp := (c.Compress w.comp main).2,
          stdout := w.stdout ++ "Compression failed. Aborting.\n".toList }) ∧
    (∀ w1, WriteData wr "" main wr.raw_file_ ( WriteFilePrefix w) = .done w1 →
      (c.Compress w1.comp ctx).1 = false →
      WriteSnapshot wr main ser ctx cser w =
        .exit 1 { w1 with
          comp := (c.Compress w1.comp ctx).2,
          stdout := w1.stdout ++ "Compression failed. Aborting.\n".toList } ∧
      w1.fp = w.fp ++ filePrefixText ++
        WriteDataText wr.omit_ "" main (.compressed_data (c.output (c.Compress w.comp main).2))) := by
  constructor
  · intro hfail
    have hcomp : ( WriteFilePrefix w).comp = w.comp := rfl
    unfold WriteSnapshot
    have hwd : WriteData wr "" main wr.raw_file_ ( WriteFilePrefix w) =
        .exit 1 { w with
          fp := w.fp ++ filePrefixText,
          comp := (c.Compress w.comp main).2,
          stdout := w.stdout ++ "Compression failed. Aborting.\n".toList } := by
      unfold WriteData
      rw [hc]
      simp only [hcomp, hfail]
      rfl
    rw [hwd]
  · intro w1 hmain hfail
    constructor
    · unfold WriteSnapshot
      rw [hmain]
      simp only
      have hwd : WriteData wr "context_" ctx wr.raw_context_file_ w1 =
          .exit 1 { w1 with
            comp := (c.Compress w1.comp ctx).2,
            stdout := w1.stdout ++ "Compression failed. Aborting.\n".toList } := by
        unfold WriteData
        rw [hc]
        simp only [hfail]
        rfl
      rw [hwd]
    · have := (WriteData_done wr "" main wr.raw_file_ _ w1 hmain).1
      rw [this]
      simp [dataToBeWritten, hc, WriteFilePrefix, World.fprintf]

/-- The amended C2 at a concrete run: the compressor fails for the main
stream `[1, 2, 3]` at once. -/
theorem WriteSnapshot_compress_failure_witness :
    (rawWriter (some failingCompressor) false).compressor_ = some failingCompressor ∧
    (failingCompressor.Compress emptyWorld.comp [1, 2, 3]).1 = false ∧
    WriteSnapshot (rawWriter (some failingCompressor) false) [1, 2, 3] fiveSerializer [4]
        fiveSerializer emptyWorld =
      .exit 1 { emptyWorld with
        fp := emptyWorld.fp ++ filePrefixText,
        comp := (failingCompressor.Compress emptyWorld.comp [1, 2, 3]).2,
        stdout := emptyWorld.stdout ++ "Compression failed. Aborting.\n".toList } :=
  ⟨rfl, rfl, (WriteSnapshot_compress_failure (rawWriter (some failingCompressor) false)
    failingCompressor [1, 2, 3] fiveSerializer [4] fiveSerializer emptyWorld rfl).1 rfl⟩

/-! ## Decimal digits -/

theorem digitChar_isDigit : ∀ d : Fin 10, (Nat.digitChar d.val).isDigit = true := by
  decide

theorem toDigitsCore_isDigit (fuel : Nat) : ∀ (n : Nat) (ds : List Char),
    (∀ ch ∈ ds, ch.isDigit = true) →
    ∀ ch ∈ Nat.toDigitsCore 10 fuel n ds, ch.isDigit = true := by
  induction fuel with
  | zero => intro n ds h; simpa [Nat.toDigitsCore] using h
  | succ f ih =>
    intro n ds h
    have hd : (Nat.digitChar (n % 10)).isDigit = true :=
      digitChar_isDigit ⟨n % 10, Nat.mod_lt _ (by decide)⟩
    have hds : ∀ ch ∈ Nat.digitChar (n % 10) :: ds, ch.isDigit = true := by
      intro ch hch
      rcases List.mem_cons.mp hch with rfl | hmem
      · exact hd
      · exact h ch hmem
    unfold Nat.toDigitsCore
    simp only
    split
    · exact hds
    · exact ih _ _ hds

/-- Every character `%u` prints is a decimal digit. -/
theorem fmtU_isDigit (n : Nat) : ∀ ch ∈ fmtU n, ch.isDigit = true :=
  toDigitsCore_isDigit _ _ _ (fun _ h => by cases h)

theorem isDigit_ne_comma (ch : Char) (h : ch.isDigit = true) : ch ≠ ',' := by
  intro he
  rw [he] at h
  exact absurd h (by decide)

theorem isDigit_ne_newline (ch : Char) (h : ch.isDigit = true) : ch ≠ '\n' := by
  intro he
  rw [he] at h
  exact absurd h (by decide)

theorem isDigit_ne_rbrace (ch : Char) (h : ch.isDigit = true) : ch ≠ '\x7d' := by
  intro he
  rw [he] at h
  exact absurd h (by decide)

set_option maxRecDepth 100000 in
/-- Reading back what `%u` prints for a byte gives the byte. -/
theorem parseDecimal_fmtU : ∀ c : CChar, parseDecimal (fmtU (toUChar c)) = some (toUChar c) := by
  decide

/-! ## Reading the table back -/

theorem dropLineBreaks_append (a b : List Char) :
    dropLineBreaks (a ++ b) = dropLineBreaks a ++ dropLineBreaks b := by
  simp [dropLineBreaks]

theorem dropLineBreaks_fmtU (n : Nat) : dropLineBreaks (fmtU n) = fmtU n := by
  unfold dropLineBreaks
  rw [List.filter_eq_self]
  intro ch hch
  simpa using isDigit_ne_newline ch (fmtU_isDigit n ch hch)

theorem splitCommas_append (ds : List Char) (hds : ∀ ch ∈ ds, ch ≠ ',')
    (rest field : List Char) (fields : List (List Char))
    (hrest : splitCommas rest = field :: fields) :
    splitCommas (ds ++ rest) = (ds ++ field) :: fields := by
  induction ds with
  | nil => simpa using hrest
  | cons d ds ih =>
    have hne : d ≠ ',' := hds d (List.mem_cons_self _ _)
    have ih1 := ih (fun ch hch => hds ch (List.mem_cons_of_mem _ hch))
    rw [List.cons_append, splitCommas, if_neg hne, ih1]
    rfl

/-- The fields of the table from entry `i > 0` on: an empty field before the
leading comma, then one field per entry. -/
theorem splitCommas_loop (cs : List CChar) : ∀ i, 0 < i →
    splitCommas (dropLineBreaks (WriteSnapshotData.loop i cs ++ "\n".toList)) =
      [] :: cs.map (fun c => fmtU (toUChar c)) := by
  induction cs with
  | nil => intro i _; rfl
  | cons c cs ih =>
    intro i hi
    have ih1 := ih (i + 1) (Nat.succ_pos i)
    have hstep : dropLineBreaks (WriteSnapshotData.loop i (c :: cs) ++ "\n".toList) =
        ',' :: (fmtU (toUChar c) ++
          dropLineBreaks (WriteSnapshotData.loop (i + 1) cs ++ "\n".toList)) := by
      simp only [WriteSnapshotData.loop, hi, if_true, List.append_assoc]
      rw [dropLineBreaks_append, dropLineBreaks_append, dropLineBreaks_append,
        dropLineBreaks_fmtU]
      have h1 : dropLineBreaks (if i &&& 0x1f = 0x1f then "\n".toList else []) = [] := by
        split <;> rfl
      have h2 : dropLineBreaks ",".toList = [','] := rfl
      rw [h1, h2, dropLineBreaks_append]
      rfl
    rw [hstep]
    have hsplit := splitCommas_append (fmtU (toUChar c))
      (fun ch hch => isDigit_ne_comma ch (fmtU_isDigit _ ch hch)) _ _ _ ih1
    simp only [splitCommas, if_true, hsplit, List.append_nil, List.map_cons]

/-- The fields of a non-empty table: one per entry. -/
theorem splitCommas_WriteSnapshotData (c : CChar) (cs : List CChar) :
    splitCommas (dropLineBreaks (WriteSnapshotData (c :: cs))) =
      (c :: cs).map (fun c => fmtU (toUChar c)) := by
  have h1 := splitCommas_loop cs 1 Nat.one_pos
  have hstep : dropLineBreaks (WriteSnapshotData (c :: cs)) =
      fmtU (toUChar c) ++ dropLineBreaks (WriteSnapshotData.loop 1 cs ++ "\n".toList) := by
    unfold WriteSnapshotData
    simp only [WriteSnapshotData.loop, List.append_assoc]
    rw [dropLineBreaks_append, dropLineBreaks_append, dropLineBreaks_append,
      dropLineBreaks_fmtU, dropLineBreaks_append]
    rfl
  rw [hstep, splitCommas_append (fmtU (toUChar c))
    (fun ch hch => isDigit_ne_comma ch (fmtU_isDigit _ ch hch)) _ _ _ h1]
  simp

theorem parseFields_map (cs : List CChar) :
    parseFields (cs.map (fun c => fmtU (toUChar c))) = some (cs.map toUChar) := by
  induction cs with
  | nil => rfl
  | cons c cs ih => simp only [List.map_cons, parseFields, parseDecimal_fmtU, ih]

/-- Reading back the table of a non-empty buffer gives its bytes. -/
theorem parseTable_WriteSnapshotData (B : List CChar) (hB : B ≠ []) :
    parseTable (WriteSnapshotData B) = some (B.map toUChar) := by
  cases B with
  | nil => exact absurd rfl hB
  | cons c cs =>
    unfold parseTable
    rw [splitCommas_WriteSnapshotData, parseFields_map]

theorem dropWhile_append_stop {α : Type} (p : α → Bool) (a : List α) (b : α) (r : List α)
    (ha : ∀ x ∈ a, p x = true) (hb : p b = false) :
    (a ++ b :: r).dropWhile p = b :: r := by
  induction a with
  | nil => simp [List.dropWhile, hb]
  | cons x a ih =>
    have hx : p x = true := ha x (List.mem_cons_self _ _)
    simp only [List.cons_append, List.dropWhile, hx]
    exact ih (fun y hy => ha y (List.mem_cons_of_mem _ hy))

theorem takeWhile_append_stop {α : Type} (p : α → Bool) (a : List α) (b : α) (r : List α)
    (ha : ∀ x ∈ a, p x = true) (hb : p b = false) :
    (a ++ b :: r).takeWhile p = a := by
  induction a with
  | nil => simp [List.takeWhile, hb]
  | cons x a ih =>
    have hx : p x = true := ha x (List.mem_cons_self _ _)
    simp only [List.cons_append, List.takeWhile, hx]
    exact congrArg _ (ih (fun y hy => ha y (List.mem_cons_of_mem _ hy)))

/-- The loop of `WriteSnapshotData` prints line breaks, commas and digits. -/
theorem loop_chars (cs : List CChar) : ∀ i, ∀ ch ∈ WriteSnapshotData.loop i cs,
    ch = '\n' ∨ ch = ',' ∨ ch.isDigit = true := by
  induction cs with
  | nil => intro i ch hch; cases hch
  | cons c cs ih =>
    intro i ch hch
    simp only [WriteSnapshotData.loop, List.mem_append] at hch
    rcases hch with ((h1 | h2) | h3) | h4
    · split at h1
      · left; simpa using h1
      · cases h1
    · split at h2
      · right; left; simpa using h2
      · cases h2
    · right; right; exact fmtU_isDigit _ ch h3
    · exact ih _ ch h4

/-- The table holds no closing brace. -/
theorem WriteSnapshotData_no_rbrace (B : List CChar) :
    ∀ ch ∈ WriteSnapshotData B, (ch != '\x7d') = true := by
  intro ch hch
  unfold WriteSnapshotData at hch
  rcases List.mem_append.mp hch with h | h
  · rcases loop_chars B 0 ch h with rfl | rfl | hd
    · decide
    · decide
    · simpa using isDigit_ne_rbrace ch hd
  · have : ch = '\n' := by simpa using h
    subst this
    decide

/-- The text between the braces of a table declaration. -/
theorem betweenBraces_table (pfx : String) (hp : '\x7b' ∉ pfx.toList)
    (tbl tail : List Char) (htbl : ∀ ch ∈ tbl, (ch != '\x7d') = true) :
    betweenBraces (dataOpenText pfx ++ tbl ++ dataCloseText ++ tail) = '\n' :: tbl := by
  have hshape : dataOpenText pfx ++ tbl ++ dataCloseText ++ tail =
      ("const byte Snapshot::".toList ++ pfx.toList ++ "data_[] = ".toList) ++
        '\x7b' :: (('\n' :: tbl) ++ '\x7d' :: (";\n".toList ++ tail)) := by
    have h1 : "data_[] = \x7b\n".toList = "data_[] = ".toList ++ ['\x7b', '\n'] := by decide
    have h2 : dataCloseText = '\x7d' :: ";\n".toList := by decide
    simp only [dataOpenText, h1, h2, List.append_assoc, List.cons_append, List.nil_append]
  have hlit1 : ∀ ch ∈ "const byte Snapshot::".toList, (ch != '\x7b') = true := by decide
  have hlit2 : ∀ ch ∈ "data_[] = ".toList, (ch != '\x7b') = true := by decide
  have hopen : ∀ ch ∈ "const byte Snapshot::".toList ++ pfx.toList ++ "data_[] = ".toList,
      (ch != '\x7b') = true := by
    intro ch hch
    rcases List.mem_append.mp hch with h | h
    · rcases List.mem_append.mp h with h | h
      · exact hlit1 ch h
      · have : ch ≠ '\x7b' := fun he => hp (he ▸ h)
        simpa using this
    · exact hlit2 ch h
  unfold betweenBraces
  rw [hshape, dropWhile_append_stop _ _ _ _ hopen (by decide)]
  simp only [List.drop_succ_cons, List.drop_zero]
  rw [takeWhile_append_stop _ _ _ _ _ (by decide)]
  intro ch hch
  rcases List.mem_cons.mp hch with rfl | h
  · decide
  · exact htbl ch h

/-- The text the three-argument `WriteData` prints, cut after the `size_`
declaration. -/
theorem WriteDataText_eq (omitFlag : Bool) (pfx : String) (B : List CChar) (ptr : DataPtr) :
    WriteDataText omitFlag pfx B ptr =
      dataOpenText pfx ++ (if !omitFlag then WriteSnapshotData (ptr.deref B) else []) ++
        dataCloseText ++
        (sizeText pfx (ptr.deref B).length ++
          (if ptr = DataPtr.source_data ∧ !omitFlag then
            rawDataAliasText pfx ++ rawSizeAliasText pfx
          else
            rawDataNullText pfx ++ rawSizeText pfx B.length) ++
          "\n".toList) := by
  simp only [WriteDataText, List.append_assoc]

/-- With omission off, the text between the braces of what the three-argument
`WriteData` prints is a line break and the table of the selected buffer. -/
theorem betweenBraces_WriteDataText (pfx : String) (hp : '\x7b' ∉ pfx.toList)
    (B : List CChar) (ptr : DataPtr) :
    betweenBraces (WriteDataText false pfx B ptr) =
      '\n' :: WriteSnapshotData (ptr.deref B) := by
  rw [WriteDataText_eq]
  exact betweenBraces_table pfx hp _ _ (WriteSnapshotData_no_rbrace _)

/-- With omission on, there is only a line break between the braces. -/
theorem betweenBraces_WriteDataText_omit (pfx : String) (hp : '\x7b' ∉ pfx.toList)
    (B : List CChar) (ptr : DataPtr) :
    betweenBraces (WriteDataText true pfx B ptr) = ['\n'] := by
  rw [WriteDataText_eq]
  exact betweenBraces_table pfx hp _ _ (fun _ h => by cases h)

theorem parseTable_newline_cons (text : List Char) :
    parseTable ('\n' :: text) = parseTable text := rfl

/-! ## The table read back -/

/-- C3: for every non-empty buffer `B`, with omission off and no compressor
(so that `data_to_be_written` is `&source_data`), reading the text between the
braces of what `WriteData` prints as a comma-separated list of decimal
numbers, line breaks ignored, gives the bytes of `B` as unsigned 8-bit values,
one number per byte, in order. -/
theorem table_reads_back (pfx : String) (hp : '\x7b' ∉ pfx.toList)
    (B : List CChar) (hB : B ≠ []) :
    parseTable (betweenBraces (WriteDataText false pfx B .source_data)) =
      some (B.map toUChar) := by
  rw [betweenBraces_WriteDataText pfx hp, parseTable_newline_cons]
  exact parseTable_WriteSnapshotData B hB

/-- C3 at a concrete buffer: the table of `[0, 7, 255]` reads back as
`[0, 7, 255]`. -/
theorem table_reads_back_witness :
    '\x7b' ∉ "context_".toList ∧ ([0, 7, 255] : List CChar) ≠ [] ∧
    parseTable (betweenBraces (WriteDataText false "context_" [0, 7, 255] .source_data)) =
      some [0, 7, 255] :=
  ⟨by decide, by decide, table_reads_back "context_" (by decide) [0, 7, 255] (by decide)⟩

/-! ## More on decimal numbers -/

theorem toDigitsCore_ne_nil (fuel : Nat) : ∀ (n : Nat) (ds : List Char), ds ≠ [] →
    Nat.toDigitsCore 10 fuel n ds ≠ [] := by
  induction fuel with
  | zero => intro n ds h; simpa [Nat.toDigitsCore] using h
  | succ f ih =>
    intro n ds _
    unfold Nat.toDigitsCore
    simp only
    split
    · exact List.cons_ne_nil _ _
    · exact ih _ _ (List.cons_ne_nil _ _)

/-- The conversion `%u` prints at least one digit. -/
theorem fmtU_ne_nil (n : Nat) : fmtU n ≠ [] := by
  unfold fmtU Nat.toDigits Nat.toDigitsCore
  simp only
  split
  · exact List.cons_ne_nil _ _
  · exact toDigitsCore_ne_nil _ _ _ (List.cons_ne_nil _ _)

/-- For a length, `%d` prints what `%u` prints. -/
theorem fmtD_natCast (n : Nat) : fmtD (n : Int) = fmtU n := by
  simp [fmtD, fmtU]

/-- What `%d` prints for a length ends in a digit. -/
theorem fmtD_natCast_last (n : Nat) :
    ∃ front d, fmtD (n : Int) = front ++ [d] ∧ d.isDigit = true := by
  rw [fmtD_natCast]
  refine ⟨(fmtU n).dropLast, (fmtU n).getLast (fmtU_ne_nil n), ?_, ?_⟩
  · exact (List.dropLast_append_getLast (fmtU_ne_nil n)).symm
  · exact fmtU_isDigit n _ (List.getLast_mem _)

/-- A text that ends in the `NULL` declarations does not end in the alias
declarations. -/
theorem null_suffix_ne_alias_suffix (pfx : String) (n : Nat) (a b : List Char) :
    a ++ (rawDataNullText pfx ++ rawSizeText pfx n ++ "\n".toList) ≠
      b ++ (rawDataAliasText pfx ++ rawSizeAliasText pfx ++ "\n".toList) := by
  obtain ⟨front, d, hfmt, hd⟩ := fmtD_natCast_last n
  intro heq
  have hl : a ++ (rawDataNullText pfx ++ rawSizeText pfx n ++ "\n".toList) =
      (a ++ rawDataNullText pfx ++ "const int Snapshot::".toList ++ pfx.toList ++
        "raw_size_ = ".toList ++ front) ++ [d, ';', '\n', '\n'] := by
    have h1 : ";\n".toList = [';', '\n'] := rfl
    have h2 : "\n".toList = ['\n'] := rfl
    simp only [rawSizeText, hfmt, h1, h2, List.append_assoc, List.cons_append,
      List.nil_append]
  have hr : b ++ (rawDataAliasText pfx ++ rawSizeAliasText pfx ++ "\n".toList) =
      (b ++ rawDataAliasText pfx ++ "const int Snapshot::".toList ++ pfx.toList ++
        "raw_size_ = Snapshot::".toList ++ pfx.toList ++ "size".toList) ++
        ['_', ';', '\n', '\n'] := by
    have h1 : "size_;\n".toList = "size".toList ++ ['_', ';', '\n'] := by decide
    have h2 : "\n".toList = ['\n'] := rfl
    simp only [rawSizeAliasText, h1, h2, List.append_assoc, List.cons_append,
      List.nil_append]
  rw [hl, hr] at heq
  have h4 := (List.append_inj' heq rfl).2
  have hdu : d = '_' := by
    injection h4
  rw [hdu] at hd
  exact absurd hd (by decide)

/-! ## The entries of the table -/

theorem dropLineBreaks_WriteSnapshotData_cons (c : CChar) (cs : List CChar) :
    dropLineBreaks (WriteSnapshotData (c :: cs)) =
      fmtU (toUChar c) ++ dropLineBreaks (WriteSnapshotData.loop 1 cs ++ "\n".toList) := by
  unfold WriteSnapshotData
  simp only [WriteSnapshotData.loop, List.append_assoc]
  rw [dropLineBreaks_append, dropLineBreaks_append, dropLineBreaks_append,
    dropLineBreaks_fmtU, dropLineBreaks_append]
  rfl

/-- The literal entries of the table of any buffer, empty or not, are its
bytes. -/
theorem tableEntries_WriteSnapshotData (B : List CChar) :
    tableEntries ('\n' :: WriteSnapshotData B) = some (B.map toUChar) := by
  cases B with
  | nil => rfl
  | cons c cs =>
    have hne : dropLineBreaks ('\n' :: WriteSnapshotData (c :: cs)) ≠ [] := by
      have h0 : dropLineBreaks ('\n' :: WriteSnapshotData (c :: cs)) =
          dropLineBreaks (WriteSnapshotData (c :: cs)) := rfl
      rw [h0, dropLineBreaks_WriteSnapshotData_cons]
      intro h
      exact fmtU_ne_nil _ (List.append_eq_nil.mp h).1
    unfold tableEntries
    rw [if_neg hne, parseTable_newline_cons]
    exact parseTable_WriteSnapshotData _ (List.cons_ne_nil _ _)

theorem dataToBeWritten_none {σ : Type} (wr : SnapshotWriter σ) (B : List CChar)
    (w : World σ) (hc : wr.compressor_ = none) : dataToBeWritten wr B w = .source_data := by
  simp [dataToBeWritten, hc]

theorem dataToBeWritten_some {σ : Type} (wr : SnapshotWriter σ) (B : List CChar)
    (w : World σ) (c : Compressor σ) (hc : wr.compressor_ = some c) :
    dataToBeWritten wr B w = .compressed_data (c.output (c.Compress w.comp B).2) := by
  simp [dataToBeWritten, hc]

/-! ## The region sizes -/

/-- C8: `WriteMeta` prints exactly seven fields, for the regions new, pointer,
data, code, map, cell and property_cell in this order, each with the value
`CurrentAllocationAddress` of the serializer for that region, and an empty
line; and whenever `WriteSnapshot` returns, the generated file holds, after
the file prefix, the data tables of the main and of the context stream, then
the fields of the context stream, then the fields of the main stream, then
the file suffix. -/
theorem region_fields_follow_tables {σ : Type} (wr : SnapshotWriter σ)
    (main : List CChar) (ser : Serializer) (ctx : List CChar) (cser : Serializer)
    (w w1 : World σ) (hd : WriteSnapshot wr main ser ctx cser w = .done w1) :
    (∀ (pfx : String) (s : Serializer), WriteMeta pfx s =
      ([("new", AllocationSpace.NEW_SPACE), ("pointer", AllocationSpace.OLD_POINTER_SPACE),
        ("data", AllocationSpace.OLD_DATA_SPACE), ("code", AllocationSpace.CODE_SPACE),
        ("map", AllocationSpace.MAP_SPACE), ("cell", AllocationSpace.CELL_SPACE),
        ("property_cell", AllocationSpace.PROPERTY_CELL_SPACE)].map
          (fun (field : String × AllocationSpace) =>
            "const int Snapshot::".toList ++ pfx.toList ++ field.1.toList ++
              "_space_used_ = ".toList ++ fmtD (s.CurrentAllocationAddress field.2) ++
              ";\n".toList)).flatten ++ "\n".toList) ∧
    ∃ (p1 p2 : DataPtr),
      w1.fp = w.fp ++ filePrefixText ++ WriteDataText wr.omit_ "" main p1 ++
        WriteDataText wr.omit_ "context_" ctx p2 ++
        WriteMeta "context_" cser ++ WriteMeta "" ser ++ fileSuffixText := by
  constructor
  · intro pfx s
    simp only [WriteMeta, WriteSizeVar, List.map, List.flatten, List.append_assoc,
      List.append_nil]
  · unfold WriteSnapshot at hd
    split at hd
    · cases hd
    · rename_i w2 hmain
      split at hd
      · cases hd
      · rename_i w3 hctx
        injection hd with hw
        subst hw
        have h1 := (WriteData_done wr "" main wr.raw_file_ _ w2 hmain).1
        have h2 := (WriteData_done wr "context_" ctx wr.raw_context_file_ _ w3 hctx).1
        refine ⟨dataToBeWritten wr main ( WriteFilePrefix w), dataToBeWritten wr ctx w2, ?_⟩
        simp only [WriteFileSuffix, World.fprintf, h2, h1, WriteFilePrefix]

/-- C8 at a concrete run: the streams `[1, 2, 3]` and `[4]`, no compressor. -/
theorem region_fields_follow_tables_witness :
    WriteSnapshot (plainWriter none false) [1, 2, 3] fiveSerializer [4] fiveSerializer
        emptyWorld =
      .done { emptyWorld with
        fp := filePrefixText ++ WriteDataText false "" [1, 2, 3] .source_data ++
          WriteDataText false "context_" [4] .source_data ++
          WriteMeta "context_" fiveSerializer ++ WriteMeta "" fiveSerializer ++
          fileSuffixText } ∧
    WriteMeta "context_" fiveSerializer =
      ([("new", AllocationSpace.NEW_SPACE), ("pointer", AllocationSpace.OLD_POINTER_SPACE),
        ("data", AllocationSpace.OLD_DATA_SPACE), ("code", AllocationSpace.CODE_SPACE),
        ("map", AllocationSpace.MAP_SPACE), ("cell", AllocationSpace.CELL_SPACE),
        ("property_cell", AllocationSpace.PROPERTY_CELL_SPACE)].map
          (fun (field : String × AllocationSpace) =>
            "const int Snapshot::".toList ++ "context_".toList ++ field.1.toList ++
              "_space_used_ = ".toList ++
              fmtD (fiveSerializer.CurrentAllocationAddress field.2) ++
              ";\n".toList)).flatten ++ "\n".toList :=
  ⟨rfl, (region_fields_follow_tables (plainWriter none false) [1, 2, 3] fiveSerializer [4]
    fiveSerializer emptyWorld _ rfl).1 "context_" fiveSerializer⟩

/-! ## The lines of the table -/

theorem scan_digits_inNumber (k : Nat) (rest : List Char) (ds : List Char)
    (hds : ∀ ch ∈ ds, ch.isDigit = true) :
    valuesPerLine.scan k true (ds ++ rest) = valuesPerLine.scan k true rest := by
  induction ds with
  | nil => rfl
  | cons d ds ih =>
    have hd : d.isDigit = true := hds d (List.mem_cons_self _ _)
    have hnl : d ≠ '\n' := isDigit_ne_newline d hd
    rw [List.cons_append, valuesPerLine.scan, if_neg hnl, if_pos hd]
    exact ih (fun ch hch => hds ch (List.mem_cons_of_mem _ hch))

theorem scan_digits (k : Nat) (rest : List Char) (ds : List Char) (hne : ds ≠ [])
    (hds : ∀ ch ∈ ds, ch.isDigit = true) :
    valuesPerLine.scan k false (ds ++ rest) = valuesPerLine.scan (k + 1) true rest := by
  cases ds with
  | nil => exact absurd rfl hne
  | cons d ds =>
    have hd : d.isDigit = true := hds d (List.mem_cons_self _ _)
    have hnl : d ≠ '\n' := isDigit_ne_newline d hd
    rw [List.cons_append, valuesPerLine.scan, if_neg hnl, if_pos hd]
    exact scan_digits_inNumber _ _ _ (fun ch hch => hds ch (List.mem_cons_of_mem _ hch))

theorem scan_fmtU (k n : Nat) (rest : List Char) :
    valuesPerLine.scan k false (fmtU n ++ rest) = valuesPerLine.scan (k + 1) true rest :=
  scan_digits k rest (fmtU n) (fmtU_ne_nil n) (fmtU_isDigit n)

theorem scan_comma (k : Nat) (b : Bool) (rest : List Char) :
    valuesPerLine.scan k b (',' :: rest) = valuesPerLine.scan k false rest := by
  rw [valuesPerLine.scan, if_neg (by decide), if_neg (by decide)]

theorem scan_newline (k : Nat) (b : Bool) (rest : List Char) :
    valuesPerLine.scan k b ('\n' :: rest) = k :: valuesPerLine.scan 0 false rest := by
  rw [valuesPerLine.scan, if_pos rfl]

theorem land_31 (i : Nat) : i &&& 0x1f = i % 32 :=
  Nat.and_pow_two_sub_one_eq_mod i 5

/-- The lines of the table from entry `i > 0` on. -/
theorem scan_loop (cs : List CChar) : ∀ (i k : Nat) (b : Bool), 0 < i →
    valuesPerLine.scan k b (WriteSnapshotData.loop i cs ++ "\n".toList) =
      lineLengths i k cs.length := by
  induction cs with
  | nil =>
    intro i k b _
    show valuesPerLine.scan k b ('\n' :: []) = [k]
    rw [scan_newline]
    rfl
  | cons c cs ih =>
    intro i k b hi
    have ih1 := fun k b => ih (i + 1) k b (Nat.succ_pos i)
    have hcomma : ",".toList = [','] := rfl
    have hnl : "\n".toList = ['\n'] := rfl
    simp only [WriteSnapshotData.loop, land_31, hi, if_true, List.length_cons, lineLengths]
    by_cases h31 : i % 32 = 31
    · simp only [h31, if_true, hcomma, hnl, List.cons_append, List.nil_append,
        List.append_assoc]
      rw [scan_newline, scan_comma, scan_fmtU]
      have := ih1 1 true
      rw [hnl] at this
      rw [this]
    · simp only [h31, if_false, hcomma, List.cons_append, List.nil_append,
        List.append_assoc]
      rw [scan_comma, scan_fmtU]
      have := ih1 (k + 1) true
      exact this

/-- The lines of the table of a non-empty buffer. -/
theorem valuesPerLine_cons (c : CChar) (cs : List CChar) :
    valuesPerLine (WriteSnapshotData (c :: cs)) = lineLengths 1 1 cs.length := by
  unfold valuesPerLine WriteSnapshotData
  have h0 : ¬ (0 &&& 0x1f = 0x1f) := by decide
  simp only [WriteSnapshotData.loop, h0, if_false, Nat.lt_irrefl, List.nil_append,
    List.append_assoc]
  rw [scan_fmtU]
  exact scan_loop cs 1 1 true Nat.one_pos

/-- The shape of `lineLengths`: the current line is filled up to the next
index whose low five bits are all set, full lines of 32 follow, and a last
line of 1 to 32 values. -/
theorem lineLengths_shape (m : Nat) : ∀ (i k : Nat),
    (m ≤ 31 - i % 32 → lineLengths i k m = [k + m]) ∧
    (31 - i % 32 < m → ∃ q last, lineLengths i k m =
        (k + (31 - i % 32)) :: (List.replicate q 32 ++ [last]) ∧
      1 ≤ last ∧ last ≤ 32 ∧ (31 - i % 32) + 32 * q + last = m) := by
  induction m with
  | zero =>
    intro i k
    exact ⟨fun _ => rfl, fun h => absurd h (Nat.not_lt_zero _)⟩
  | succ m ih =>
    intro i k
    by_cases h31 : i % 32 = 31
    · have hnext : (i + 1) % 32 = 0 := by omega
      obtain ⟨ihle, ihgt⟩ := ih (i + 1) 1
      rw [hnext] at ihle ihgt
      constructor
      · intro hle
        omega
      · intro _
        rw [lineLengths, if_pos h31]
        by_cases hm : m ≤ 31
        · refine ⟨0, m + 1, ?_, by omega, by omega, by omega⟩
          rw [ihle (by omega)]
          have hk : k + (31 - i % 32) = k := by omega
          rw [hk, Nat.add_comm 1 m]
          rfl
        · obtain ⟨q, last, heq, h1, h2, h3⟩ := ihgt (by omega)
          refine ⟨q + 1, last, ?_, h1, h2, by omega⟩
          have hk : k + (31 - i % 32) = k := by omega
          rw [heq, hk, List.replicate_succ]
          rfl
    · have hnext : (i + 1) % 32 = i % 32 + 1 := by omega
      obtain ⟨ihle, ihgt⟩ := ih (i + 1) (k + 1)
      rw [hnext] at ihle ihgt
      constructor
      · intro hle
        rw [lineLengths, if_neg h31, ihle (by omega)]
        congr 1
        omega
      · intro hgt
        rw [lineLengths, if_neg h31]
        obtain ⟨q, last, heq, h1, h2, h3⟩ := ihgt (by omega)
        refine ⟨q, last, ?_, h1, h2, by omega⟩
        rw [heq]
        congr 1
        omega

/-- C9, as stated, fails: for the 40-byte buffer the first line of the table
holds 31 values and the second the remaining 9 (not 32 and 8), so a line other
than the last holds a number of values that is not 32. -/
theorem forty_bytes_wrap_at_31 :
    fortyBytes.length = 40 ∧
    valuesPerLine (WriteSnapshotData fortyBytes) = [31, 9] ∧
    valuesPerLine (WriteSnapshotData fortyBytes) ≠ [32, 8] := by
  decide

/-- C9 (amended): with omission off the value listing is wrapped with period
32, a line break being printed before every entry whose index has its low
five bits set (31, 63, ...): a buffer of fewer than 32 bytes is listed on one
line; for a longer buffer the first line holds 31 values, every line other
than the first and the last holds exactly 32 values, and the last line holds
the remaining 1 to 32 values. -/
theorem table_line_lengths (B : List CChar) :
    (B.length < 32 → valuesPerLine (WriteSnapshotData B) = [B.length]) ∧
    (32 ≤ B.length → ∃ q last,
      valuesPerLine (WriteSnapshotData B) = 31 :: (List.replicate q 32 ++ [last]) ∧
      1 ≤ last ∧ last ≤ 32 ∧ 31 + 32 * q + last = B.length) := by
  cases B with
  | nil =>
    refine ⟨fun _ => rfl, fun h => ?_⟩
    simp at h
  | cons c cs =>
    rw [valuesPerLine_cons]
    obtain ⟨hle, hgt⟩ := lineLengths_shape cs.length 1 1
    simp only [List.length_cons]
    constructor
    · intro hlt
      rw [hle (by omega), Nat.add_comm 1]
    · intro hge
      obtain ⟨q, last, heq, h1, h2, h3⟩ := hgt (by omega)
      exact ⟨q, last, heq, h1, h2, by omega⟩

/-- The amended C9 at a concrete buffer: 70 bytes are listed on lines of 31,
32 and 7 values. -/
theorem table_line_lengths_witness :
    32 ≤ (List.replicate 70 (7 : CChar)).length ∧
    ∃ q last,
      valuesPerLine (WriteSnapshotData (List.replicate 70 (7 : CChar))) =
        31 :: (List.replicate q 32 ++ [last]) ∧
      1 ≤ last ∧ last ≤ 32 ∧ 31 + 32 * q + last = (List.replicate 70 (7 : CChar)).length :=
  ⟨by decide, (table_line_lengths (List.replicate 70 7)).2 (by decide)⟩

/-! ## The usage check -/

/-- C10, as stated, fails: when flag parsing reports no error, one positional
argument is left and the help flag is set, `main` prints the usage and returns
exit status 0, not 1. -/
theorem help_flag_returns_zero :
    mainUsageCheck "mksnapshot" [] { result := 0, argc := 2, FLAG_help := true } =
      some (usageText "mksnapshot" ++ [], 0) := by
  decide

/-- C10 (amended): whenever flag parsing reports an error, or `argc` is not 2
after flag parsing, or the help flag is set, `main` prints the usage followed
by the help text and returns `!FLAG_help`: exit status 1 when the help flag is
not set, exit status 0 when it is set. -/
theorem usage_exit_status (argv0 : String) (helpText : List Char) (p : FlagParse)
    (hu : p.result > 0 ∨ p.argc ≠ 2 ∨ p.FLAG_help = true) :
    mainUsageCheck argv0 helpText p =
      some (usageText argv0 ++ helpText, if p.FLAG_help = true then 0 else 1) := by
  unfold mainUsageCheck
  rw [if_pos hu]
  cases p.FLAG_help <;> rfl

/-- The amended C10 at a concrete run: two positional arguments are left
(`argc` is 3) and the help flag is not set. -/
theorem usage_exit_status_witness :
    ((0 : Int) > 0 ∨ (3 : Int) ≠ 2 ∨ false = true) ∧
    mainUsageCheck "mksnapshot" [] { result := 0, argc := 3, FLAG_help := false } =
      some (usageText "mksnapshot" ++ [], 1) :=
  ⟨by decide, usage_exit_status "mksnapshot" []
    { result := 0, argc := 3, FLAG_help := false } (by decide)⟩

/-! ## The working buffer of the bzip2 compressor -/

/-- C11, evaluated where it fails: for an input of 21262215 bytes the product
`n * 101` exceeds `2^31 - 1`, and the length computed for the working buffer
is negative; for the longest input, `2^31 - 1` bytes, it is positive but
smaller than the input. -/
theorem workingLength_overflow :
    BZip2Compressor.workingLength 21262215 = -21473835 ∧
    BZip2Compressor.workingLength 21262215 < 0 ∧
    BZip2Compressor.workingLength 2147483647 = 21475835 ∧
    BZip2Compressor.workingLength 2147483647 < 2147483647 := by
  decide

/-- Up to 21262214 bytes of input nothing overflows, and the working buffer
has `n + n / 100 + 1000` bytes. -/
theorem workingLength_small (n : Int) (h0 : 0 ≤ n) (h1 : n ≤ 21262214) :
    BZip2Compressor.workingLength n = n + n / 100 + 1000 := by
  have hw : wrapInt32 (n * 101) = n * 101 := by
    unfold wrapInt32
    omega
  have hd : Int.tdiv (n * 101) 100 = n + n / 100 := by
    rw [Int.tdiv_eq_ediv (by omega) (by decide)]
    omega
  unfold BZip2Compressor.workingLength
  rw [hw, hd]
  unfold wrapInt32
  omega

/-! ## The byte sink -/

theorem PutAll_eq (calls : List (Int × Option String)) : ∀ data_ : List CChar,
    ListSnapshotSink.PutAll calls data_ = data_ ++ calls.map (fun call => intToChar call.1) := by
  induction calls with
  | nil => intro data_; simp [ListSnapshotSink.PutAll]
  | cons call calls ih =>
    intro data_
    have := ih (ListSnapshotSink.Put call.1 call.2 data_)
    simp only [ListSnapshotSink.PutAll, List.foldl_cons] at this ⊢
    rw [this]
    simp [ListSnapshotSink.Put, ListAdd]

theorem intToChar_val (byte : Int) : ((intToChar byte).val : Int) = byte % 256 := by
  unfold intToChar
  simp only [Fin.ofNat, Fin.val_mk]
  omega

/-- C12: after any sequence of `Put` calls the buffer is the initial contents
followed by the bytes of the calls, each reduced to its low 8 bits, in call
order, whatever the descriptions are (the result is a function of the bytes
alone); the bytes that were in the buffer before are still at their places;
and `Position()` is the number of bytes in the buffer, so that it has grown by
the number of calls, by exactly 1 for each `Put`. -/
theorem sink_appends (data_ : List CChar) (calls : List (Int × Option String)) :
    ListSnapshotSink.PutAll calls data_ =
      data_ ++ (calls.map Prod.fst).map intToChar ∧
    (∀ byte : Int, ((intToChar byte).val : Int) = byte % 256) ∧
    (∀ j, j < data_.length → (ListSnapshotSink.PutAll calls data_)[j]? = data_[j]?) ∧
    ListSnapshotSink.Position (ListSnapshotSink.PutAll calls data_) =
      ((ListSnapshotSink.PutAll calls data_).length : Int) ∧
    ListSnapshotSink.Position (ListSnapshotSink.PutAll calls data_) =
      ListSnapshotSink.Position data_ + calls.length ∧
    (∀ byte description, ListSnapshotSink.Position
        (ListSnapshotSink.Put byte description data_) =
      ListSnapshotSink.Position data_ + 1) := by
  have heq := PutAll_eq calls data_
  refine ⟨?_, intToChar_val, ?_, rfl, ?_, ?_⟩
  · rw [heq, List.map_map]
    rfl
  · intro j hj
    rw [heq, List.getElem?_append_left hj]
  · rw [heq]
    simp [ListSnapshotSink.Position, ListLength]
  · intro byte description
    simp [ListSnapshotSink.Position, ListSnapshotSink.Put, ListLength, ListAdd]

/-! ## The marker line of `DumpException` -/

/-- From the start column on, the loop prints carets up to the end column. -/
theorem DumpException_loop_carets (message : Message) : ∀ (n : Nat) (i : Int),
    message.GetStartColumn ≤ i → message.GetEndColumn + 1 - i = n →
    DumpException.loop message i = List.replicate n '^' := by
  intro n
  induction n with
  | zero =>
    intro i _ hn
    rw [DumpException.loop, if_neg (by omega)]
    rfl
  | succ n ih =>
    intro i hs hn
    rw [DumpException.loop, if_pos (by omega), if_neg (by omega),
      ih (i + 1) (by omega) (by omega)]
    rfl

/-- Before the start column the loop prints spaces. -/
theorem DumpException_loop_spaces (message : Message)
    (hse : message.GetStartColumn ≤ message.GetEndColumn) : ∀ (m : Nat) (i : Int),
    i + m = message.GetStartColumn →
    DumpException.loop message i =
      List.replicate m ' ' ++ DumpException.loop message message.GetStartColumn := by
  intro m
  induction m with
  | zero =>
    intro i hi
    have : i = message.GetStartColumn := by omega
    rw [this]
    rfl
  | succ m ih =>
    intro i hi
    rw [DumpException.loop, if_pos (by omega), if_pos (by omega),
      ih (i + 1) (by omega)]
    rfl

/-- C14: for a message with start column `s` and end column `e`, `0 ≤ s ≤ e`,
the marker line of `DumpException` is `s` spaces followed by `e - s + 1`
carets; it has `e + 1` characters, and its character at column `j` is a caret
exactly when `s ≤ j ≤ e`. The line is followed by a line break and stands
under the source line. -/
theorem marker_line (message : Message) (h0 : 0 ≤ message.GetStartColumn)
    (hse : message.GetStartColumn ≤ message.GetEndColumn) :
    DumpException.markers message =
      List.replicate message.GetStartColumn.toNat ' ' ++
        List.replicate (message.GetEndColumn - message.GetStartColumn + 1).toNat '^' ∧
    ((DumpException.markers message).length : Int) = message.GetEndColumn + 1 ∧
    (∀ j : Nat, (DumpException.markers message)[j]? = some '^' ↔
      message.GetStartColumn ≤ j ∧ (j : Int) ≤ message.GetEndColumn) ∧
    DumpException message =
      message.Get.toList ++ " at line ".toList ++ fmtD message.GetLineNumber ++
        "\n".toList ++ message.GetSourceLine.toList ++ "\n".toList ++
        DumpException.markers message ++ "\n".toList := by
  have hm : DumpException.markers message =
      List.replicate message.GetStartColumn.toNat ' ' ++
        List.replicate (message.GetEndColumn - message.GetStartColumn + 1).toNat '^' := by
    unfold DumpException.markers
    rw [DumpException_loop_spaces message hse message.GetStartColumn.toNat 0 (by omega),
      DumpException_loop_carets message
        (message.GetEndColumn - message.GetStartColumn + 1).toNat message.GetStartColumn
        (le_refl _) (by omega)]
  refine ⟨hm, ?_, ?_, rfl⟩
  · rw [hm]
    simp only [List.length_append, List.length_replicate]
    omega
  · intro j
    rw [hm]
    by_cases hj : j < message.GetStartColumn.toNat
    · rw [List.getElem?_append_left (by simpa using hj), List.getElem?_replicate]
      simp only [hj, if_true]
      constructor
      · intro h
        exact absurd (Option.some.inj h) (by decide)
      · intro h
        omega
    · have hge : (List.replicate message.GetStartColumn.toNat ' ').length ≤ j := by
        simpa using hj
      rw [List.getElem?_append_right hge, List.getElem?_replicate]
      simp only [List.length_replicate]
      constructor
      · intro h
        split at h
        · omega
        · cases h
      · intro h
        rw [if_pos (by omega)]

/-- C14 at a concrete message: start column 2 and end column 4 give two
spaces and three carets. -/
theorem marker_line_witness :
    0 ≤ exampleMessage.GetStartColumn ∧
    exampleMessage.GetStartColumn ≤ exampleMessage.GetEndColumn ∧
    DumpException.markers exampleMessage = [' ', ' ', '^', '^', '^'] :=
  ⟨by decide, by decide, (marker_line exampleMessage (by decide) (by decide)).1⟩

/-! ## The read loop of `main` -/

/-- A device that hands over nothing keeps the loop where it is. -/
theorem readLoop_stalled (name : String) (errno : Int) (content : List CChar) (size : Int)
    (i : Int) (chars : List CChar) (hi : i < size) : ∀ (fuel call : Nat),
    readLoop name errno stalledDevice content size fuel call i chars = .looping i chars := by
  intro fuel
  induction fuel with
  | zero => intro call; rfl
  | succ fuel ih =>
    intro call
    have hcount : min (min (stalledDevice call (size - i).toNat) (size - i).toNat)
        (content.length - i.toNat) = 0 := by
      simp [stalledDevice]
    have hwrap : wrapInt32 ((0 : Nat) : Int) = 0 := by decide
    rw [readLoop, if_pos hi]
    simp only [hcount, hwrap, List.take_zero, List.append_nil, add_zero]
    rw [if_neg (by decide)]
    exact ih (call + 1)

/-- The value of `read` is never negative: a count of at most `2^31 - 1` bytes
is itself after the conversion to `int`. -/
theorem wrapInt32_count (count : Nat) (h : (count : Int) ≤ 2147483647) :
    wrapInt32 count = count := by
  unfold wrapInt32
  omega

/-- The branch that prints `Failed to read` is never taken. -/
theorem readLoop_never_exits (name : String) (errno : Int) (deliver : Nat → Nat → Nat)
    (content : List CChar) (size : Int) (hsize : size ≤ 2147483647) :
    ∀ (fuel call : Nat) (i : Int) (chars : List CChar), 0 ≤ i →
    ∀ status text, readLoop name errno deliver content size fuel call i chars ≠
      .exit status text := by
  intro fuel
  induction fuel with
  | zero => intro call i chars _ status text h; cases h
  | succ fuel ih =>
    intro call i chars hi status text
    rw [readLoop]
    split
    · rename_i hlt
      have hle : min (min (deliver call (size - i).toNat) (size - i).toNat)
          (content.length - i.toNat) ≤ (size - i).toNat :=
        le_trans (Nat.min_le_left _ _) (Nat.min_le_right _ _)
      have hw := wrapInt32_count (min (min (deliver call (size - i).toNat) (size - i).toNat)
        (content.length - i.toNat)) (by omega)
      simp only [hw]
      rw [if_neg (by omega)]
      exact ih _ _ _ (by omega) status text
    · intro h
      cases h

/-- When every `fread` that is asked for a byte hands over at least one, and
the file has `size` bytes, the loop ends within `size - i` iterations (and one
more test of `i < size`) with the bytes of the file stored in order. -/
theorem readLoop_finishes (name : String) (errno : Int) (deliver : Nat → Nat → Nat)
    (content : List CChar) (size : Int) (hsize : size ≤ 2147483647)
    (hcontent : size ≤ content.length)
    (hdeliver : ∀ call requested, 1 ≤ requested → 1 ≤ deliver call requested) :
    ∀ (fuel call : Nat) (i : Int) (chars : List CChar), 0 ≤ i → i ≤ size →
    (size - i).toNat < fuel →
    readLoop name errno deliver content size fuel call i chars =
      .finished (chars ++ (content.drop i.toNat).take (size - i).toNat) := by
  intro fuel
  induction fuel with
  | zero =>
    intro call i chars hi his hfuel
    exact absurd hfuel (Nat.not_lt_zero _)
  | succ fuel ih =>
    intro call i chars hi his hfuel
    rw [readLoop]
    split
    · rename_i hlt
      dsimp only
      generalize hc : min (min (deliver call (size - i).toNat) (size - i).toNat)
          (content.length - i.toNat) = count
      have hd := hdeliver call (size - i).toNat (by omega)
      have hle : count ≤ (size - i).toNat := by
        rw [← hc]
        exact le_trans (Nat.min_le_left _ _) (Nat.min_le_right _ _)
      have hpos : 1 ≤ count := by
        rw [← hc]
        omega
      have hw := wrapInt32_count count (by omega)
      simp only [hw]
      rw [if_neg (by omega), ih _ _ _ (by omega) (by omega) (by omega)]
      have h1 : (i + (count : Int)).toNat = i.toNat + count := by omega
      have h2 : (size - i).toNat = count + (size - (i + (count : Int))).toNat := by omega
      rw [h1, h2, List.take_add, List.append_assoc, List.drop_drop]
    · rename_i hnot
      have : (size - i).toNat = 0 := by omega
      rw [this]
      simp

/-- C15, evaluated where it fails: for a file of one byte (`size` is 1) and a
device whose every `fread` hands over no byte, the loop is still in its first
state, at index 0 with nothing stored, after any number of iterations: it
neither ends nor takes the branch that prints `Failed to read`. -/
theorem read_loop_never_ends :
    ∀ fuel : Nat, readLoop "extra.js" 0 stalledDevice [65] 1 fuel 0 0 [] = .looping 0 [] :=
  fun fuel => readLoop_stalled "extra.js" 0 [65] 1 0 [] (by decide) fuel 0

/-! ## Streams that are not written to -/

theorem stream_setStream_ne {σ : Type} (w : World σ) (h1 h2 : Handle) (f : FILE)
    (hne : h1 ≠ h2) : (w.setStream h1 f).stream h2 = w.stream h2 := by
  cases h1 <;> cases h2 <;> first | rfl | exact absurd rfl hne

/-- A raw write leaves every other stream as it was, whether it returns or
exits. -/
theorem MaybeWriteRawFile_frame {σ : Type} (data : List CChar) (rf : Option Handle)
    (w : World σ) (h : Handle) (hne : rf ≠ some h) :
    (MaybeWriteRawFile data rf w).world.stream h = w.stream h := by
  cases rf with
  | none => rfl
  | some h1 =>
    have hne1 : h1 ≠ h := fun he => hne (by rw [he])
    have hs := stream_setStream_ne w h1 h (fwrite data (w.stream h1)).2 hne1
    unfold MaybeWriteRawFile
    simp only
    split
    · cases h <;> simpa [Outcome.world, World.stream] using hs
    · simpa [Outcome.world] using hs

theorem finish_frame {σ : Type} (wr : SnapshotWriter σ) (pfx : String) (B : List CChar)
    (rf : Option Handle) (ptr : DataPtr) (w : World σ) (h : Handle) (hne : rf ≠ some h) :
    (WriteData.finish wr pfx B rf ptr w).world.stream h = w.stream h := by
  have hm := MaybeWriteRawFile_frame (ptr.deref B) rf w h hne
  unfold WriteData.finish
  cases hr : MaybeWriteRawFile (ptr.deref B) rf w with
  | exit status w1 =>
    rw [hr] at hm
    simpa [Outcome.world] using hm
  | done w1 =>
    rw [hr] at hm
    cases h <;> simpa [Outcome.world, World.fprintf, World.stream] using hm

/-- The first `WriteData` leaves every stream other than its raw file as it
was, whether it returns or exits. -/
theorem WriteData_frame {σ : Type} (wr : SnapshotWriter σ) (pfx : String) (B : List CChar)
    (rf : Option Handle) (w : World σ) (h : Handle) (hne : rf ≠ some h) :
    (WriteData wr pfx B rf w).world.stream h = w.stream h := by
  unfold WriteData
  cases wr.compressor_ with
  | none => exact finish_frame wr pfx B rf _ w h hne
  | some c =>
    simp only
    split
    · rw [finish_frame wr pfx B rf _ _ h hne]
      cases h <;> rfl
    · cases h <;> rfl

/-- When `WriteSnapshot` returns with the two raw files open, each raw stream
has received the buffer selected for its stream. -/
theorem WriteSnapshot_raw_streams {σ : Type} (wr : SnapshotWriter σ) (main : List CChar)
    (ser : Serializer) (ctx : List CChar) (cser : Serializer) (w w3 : World σ)
    (h1 : wr.raw_file_ = some .raw) (h2 : wr.raw_context_file_ = some .rawContext)
    (hd : WriteSnapshot wr main ser ctx cser w = .done w3) :
    ∃ p1 p2 : DataPtr,
      w3.rawStream.bytes = w.rawStream.bytes ++ p1.deref main ∧
      w3.rawContextStream.bytes = w.rawContextStream.bytes ++ p2.deref ctx ∧
      (wr.compressor_ = none → p1 = .source_data ∧ p2 = .source_data) := by
  unfold WriteSnapshot at hd
  split at hd
  · cases hd
  · rename_i w1 hmain
    split at hd
    · cases hd
    · rename_i w2 hctx
      injection hd with hw
      subst hw
      have hm := (WriteData_done wr "" main wr.raw_file_ _ w1 hmain).2.1 .raw h1
      have hc := (WriteData_done wr "context_" ctx wr.raw_context_file_ _ w2 hctx).2.1
        .rawContext h2
      have hfm := WriteData_frame wr "" main wr.raw_file_ ( WriteFilePrefix w) .rawContext
        (by rw [h1]; decide)
      have hfc := WriteData_frame wr "context_" ctx wr.raw_context_file_ w1 .raw
        (by rw [h2]; decide)
      rw [hmain] at hfm
      rw [hctx] at hfc
      simp only [Outcome.world, World.stream] at hfm hfc hm hc
      refine ⟨dataToBeWritten wr main ( WriteFilePrefix w), dataToBeWritten wr ctx w1,
        ?_, ?_, ?_⟩
      · show w2.rawStream.bytes = _
        rw [hfc, hm]
        rfl
      · show w2.rawContextStream.bytes = _
        rw [hc, hfm]
        rfl
      · intro hnone
        exact ⟨dataToBeWritten_none wr main _ hnone, dataToBeWritten_none wr ctx _ hnone⟩

/-! ## The raw files of `main` -/

theorem digitChar_value : ∀ d : Fin 10,
    (Nat.digitChar d.val).isDigit = true ∧ (Nat.digitChar d.val).toNat - 48 = d.val := by
  decide

/-- Reading the digits `toDigitsCore` puts in front of `ds` adds the number
to the value read so far. -/
theorem parseDigits_toDigitsCore (fuel : Nat) : ∀ (n : Nat) (ds : List Char), n < fuel →
    ∃ k : Nat, ∀ acc, parseDigits acc (Nat.toDigitsCore 10 fuel n ds) =
      parseDigits (acc * 10 ^ k + n) ds := by
  induction fuel with
  | zero => intro n ds h; exact absurd h (Nat.not_lt_zero _)
  | succ f ih =>
    intro n ds hn
    obtain ⟨hdig, hval⟩ := digitChar_value ⟨n % 10, Nat.mod_lt _ (by decide)⟩
    simp only at hdig hval
    have hstep : ∀ acc, parseDigits acc (Nat.digitChar (n % 10) :: ds) =
        parseDigits (10 * acc + n % 10) ds := by
      intro acc
      rw [parseDigits, if_pos hdig, hval]
    unfold Nat.toDigitsCore
    simp only
    split
    · rename_i hq
      refine ⟨1, fun acc => ?_⟩
      rw [hstep]
      congr 1
      omega
    · rename_i hq
      obtain ⟨k, hk⟩ := ih (n / 10) (Nat.digitChar (n % 10) :: ds) (by omega)
      refine ⟨k + 1, fun acc => ?_⟩
      rw [hk, hstep]
      congr 1
      rw [pow_succ, ← Nat.mul_assoc]
      generalize acc * 10 ^ k = x
      omega

/-- Reading back what `%u` prints gives the number, whatever its size. -/
theorem parseDecimal_fmtU_nat (n : Nat) : parseDecimal (fmtU n) = some n := by
  unfold parseDecimal
  rw [if_neg (fmtU_ne_nil n)]
  obtain ⟨k, hk⟩ := parseDigits_toDigitsCore (n + 1) n [] (Nat.lt_succ_self n)
  have := hk 0
  simpa [fmtU, Nat.toDigits, parseDigits] using this

/-! ## Lines and their beginnings -/

theorem textLines_line (a : List Char) (ha : ∀ ch ∈ a, ch ≠ '\n') (rest : List Char) :
    textLines (a ++ '\n' :: rest) = a :: textLines rest := by
  induction a with
  | nil => simp [textLines]
  | cons d a ih =>
    have hne : d ≠ '\n' := ha d (List.mem_cons_self _ _)
    have ih1 := ih (fun ch hch => ha ch (List.mem_cons_of_mem _ hch))
    rw [List.cons_append, textLines, if_neg hne, ih1]

theorem dropHead_append (a key line : List Char) :
    dropHead (a ++ key) (a ++ line) = dropHead key line := by
  induction a with
  | nil => rfl
  | cons d a ih =>
    rw [List.cons_append, List.cons_append, dropHead, if_pos rfl]
    exact ih

theorem dropHead_self (key rest : List Char) : dropHead key (key ++ rest) = some rest := by
  have := dropHead_append key [] rest
  simpa [dropHead] using this

/-- The initializer of a line that begins with the key and ends in a
semicolon. -/
theorem findInitializer_here (key initializer : List Char) (lines : List (List Char)) :
    findInitializer key ((key ++ (initializer ++ [';'])) :: lines) = some initializer := by
  rw [findInitializer, dropHead_self]
  simp only [List.getLast?_concat, if_true, List.dropLast_concat]

/-- A line that does not begin with the key is passed over. -/
theorem findInitializer_skip (key line : List Char) (lines : List (List Char))
    (h : dropHead key line = none) :
    findInitializer key (line :: lines) = findInitializer key lines := by
  rw [findInitializer, h]

/-! ## The declarations after the table -/

theorem isIdentifierText_chars (pfx : String) (hid : isIdentifierText pfx) :
    '\x7b' ∉ pfx.toList ∧ '\x7d' ∉ pfx.toList ∧ ∀ ch ∈ pfx.toList, ch ≠ '\n' := by
  refine ⟨fun hmem => ?_, fun hmem => ?_, fun ch hmem he => ?_⟩
  · rcases hid _ hmem with h | h
    · exact absurd h (by decide)
    · exact absurd h (by decide)
  · rcases hid _ hmem with h | h
    · exact absurd h (by decide)
    · exact absurd h (by decide)
  · subst he
    rcases hid _ hmem with h | h
    · exact absurd h (by decide)
    · exact absurd h (by decide)

/-- The text after the closing brace of a table declaration. -/
theorem afterBrace_table (pfx : String) (hq : '\x7d' ∉ pfx.toList)
    (tbl tail : List Char) (htbl : ∀ ch ∈ tbl, (ch != '\x7d') = true) :
    afterBrace (dataOpenText pfx ++ tbl ++ dataCloseText ++ tail) =
      ';' :: '\n' :: tail := by
  have hshape : dataOpenText pfx ++ tbl ++ dataCloseText ++ tail =
      (dataOpenText pfx ++ tbl) ++ '\x7d' :: (';' :: '\n' :: tail) := by
    have h2 : dataCloseText = ['\x7d', ';', '\n'] := by decide
    simp only [h2, List.append_assoc, List.cons_append, List.nil_append]
  have hlit1 : ∀ ch ∈ "const byte Snapshot::".toList, (ch != '\x7d') = true := by decide
  have hlit2 : ∀ ch ∈ "data_[] = \x7b\n".toList, (ch != '\x7d') = true := by decide
  have hopen : ∀ ch ∈ dataOpenText pfx ++ tbl, (ch != '\x7d') = true := by
    intro ch hch
    rcases List.mem_append.mp hch with h | h
    · unfold dataOpenText at h
      rcases List.mem_append.mp h with h | h
      · rcases List.mem_append.mp h with h | h
        · exact hlit1 ch h
        · have : ch ≠ '\x7d' := fun he => hq (he ▸ h)
          simpa using this
      · exact hlit2 ch h
    · exact htbl ch h
  unfold afterBrace
  rw [hshape, dropWhile_append_stop _ _ _ _ hopen (by decide)]
  rfl

/-- The lines after the table, for any three declaration lines. -/
theorem declarationLines_table (pfx : String) (hq : '\x7d' ∉ pfx.toList)
    (tbl : List Char) (htbl : ∀ ch ∈ tbl, (ch != '\x7d') = true)
    (l1 l2 l3 : List Char) (h1 : ∀ ch ∈ l1, ch ≠ '\n') (h2 : ∀ ch ∈ l2, ch ≠ '\n')
    (h3 : ∀ ch ∈ l3, ch ≠ '\n') :
    declarationLines (dataOpenText pfx ++ tbl ++ dataCloseText ++
        (l1 ++ '\n' :: (l2 ++ '\n' :: (l3 ++ '\n' :: ['\n'])))) =
      [[';'], l1, l2, l3, [], []] := by
  unfold declarationLines
  rw [afterBrace_table pfx hq tbl _ htbl]
  have h0 : ∀ ch ∈ [';'], ch ≠ '\n' := by decide
  have := textLines_line [';'] h0 (l1 ++ '\n' :: (l2 ++ '\n' :: (l3 ++ '\n' :: ['\n'])))
  simp only [List.cons_append, List.nil_append] at this
  rw [this, textLines_line l1 h1, textLines_line l2 h2, textLines_line l3 h3]
  rfl

/-- What `%d` prints for a length holds no line break. -/
theorem fmtD_natCast_no_break (n : Nat) : ∀ ch ∈ fmtD (n : Int), ch ≠ '\n' := by
  rw [fmtD_natCast]
  exact fun ch hch => isDigit_ne_newline ch (fmtU_isDigit n ch hch)

/-- The initializers the three-argument `WriteData` prints for `raw_data_`
and `raw_size_`. -/
theorem WriteDataText_lines (omitFlag : Bool) (pfx : String) (B : List CChar)
    (ptr : DataPtr) :
    WriteDataText omitFlag pfx B ptr =
      dataOpenText pfx ++ (if !omitFlag then WriteSnapshotData (ptr.deref B) else []) ++
        dataCloseText ++
        ((sizeKey pfx ++ (fmtD (ptr.deref B).length ++ [';'])) ++ '\n' ::
          ((rawDataKey pfx ++
              ((if ptr = DataPtr.source_data ∧ (!omitFlag) = true then
                  "Snapshot::".toList ++ pfx.toList ++ "data_".toList
                else "NULL".toList) ++ [';'])) ++ '\n' ::
            ((rawSizeKey pfx ++
                ((if ptr = DataPtr.source_data ∧ (!omitFlag) = true then
                    "Snapshot::".toList ++ pfx.toList ++ "size_".toList
                  else fmtD B.length) ++ [';'])) ++ '\n' :: ['\n']))) := by
  have e1 : ";\n".toList = [';', '\n'] := rfl
  have e2 : "\n".toList = ['\n'] := rfl
  have e3 : "data_;\n".toList = "data_".toList ++ [';', '\n'] := by decide
  have e4 : "size_;\n".toList = "size_".toList ++ [';', '\n'] := by decide
  have e5 : "raw_data_ = Snapshot::".toList = "raw_data_ = ".toList ++ "Snapshot::".toList := by
    decide
  have e6 : "raw_size_ = Snapshot::".toList = "raw_size_ = ".toList ++ "Snapshot::".toList := by
    decide
  have e7 : "raw_data_ = NULL;\n".toList = "raw_data_ = ".toList ++ ("NULL".toList ++ [';', '\n']) := by
    decide
  by_cases halias : ptr = DataPtr.source_data ∧ (!omitFlag) = true
  · simp only [WriteDataText, if_pos halias, sizeText, rawDataAliasText, rawSizeAliasText,
      sizeKey, rawDataKey, rawSizeKey, e1, e2, e3, e4, e5, e6, List.append_assoc,
      List.cons_append, List.nil_append]
  · simp only [WriteDataText, if_neg halias, sizeText, rawDataNullText, rawSizeText,
      sizeKey, rawDataKey, rawSizeKey, e1, e2, e7, List.append_assoc,
      List.cons_append, List.nil_append]

/-- The lines after the table in what the three-argument `WriteData` prints. -/
theorem declarationLines_WriteDataText (omitFlag : Bool) (pfx : String)
    (hid : isIdentifierText pfx) (B : List CChar) (ptr : DataPtr) :
    declarationLines (WriteDataText omitFlag pfx B ptr) =
      [[';'],
       sizeKey pfx ++ (fmtD (ptr.deref B).length ++ [';']),
       rawDataKey pfx ++
         ((if ptr = DataPtr.source_data ∧ (!omitFlag) = true then
             "Snapshot::".toList ++ pfx.toList ++ "data_".toList
           else "NULL".toList) ++ [';']),
       rawSizeKey pfx ++
         ((if ptr = DataPtr.source_data ∧ (!omitFlag) = true then
             "Snapshot::".toList ++ pfx.toList ++ "size_".toList
           else fmtD B.length) ++ [';']),
       [], []] := by
  obtain ⟨-, hq, hnl⟩ := isIdentifierText_chars pfx hid
  have htbl : ∀ ch ∈ (if !omitFlag then WriteSnapshotData (ptr.deref B) else []),
      (ch != '\x7d') = true := by
    split
    · exact WriteSnapshotData_no_rbrace _
    · intro ch h
      cases h
  have c1 : ∀ ch ∈ "const int Snapshot::".toList, ch ≠ '\n' := by decide
  have c2 : ∀ ch ∈ "const byte* Snapshot::".toList, ch ≠ '\n' := by decide
  have c3 : ∀ ch ∈ "size_ = ".toList, ch ≠ '\n' := by decide
  have c4 : ∀ ch ∈ "raw_data_ = ".toList, ch ≠ '\n' := by decide
  have c5 : ∀ ch ∈ "raw_size_ = ".toList, ch ≠ '\n' := by decide
  have c6 : ∀ ch ∈ "Snapshot::".toList, ch ≠ '\n' := by decide
  have c7 : ∀ ch ∈ "data_".toList, ch ≠ '\n' := by decide
  have c8 : ∀ ch ∈ "size_".toList, ch ≠ '\n' := by decide
  have c9 : ∀ ch ∈ "NULL".toList, ch ≠ '\n' := by decide
  have c10 : ∀ ch ∈ [';'], ch ≠ '\n' := by decide
  rw [WriteDataText_lines]
  refine declarationLines_table pfx hq _ htbl _ _ _ ?_ ?_ ?_
  · simp only [sizeKey, List.forall_mem_append]
    exact ⟨⟨⟨c1, hnl⟩, c3⟩, fmtD_natCast_no_break _, c10⟩
  · simp only [rawDataKey, List.forall_mem_append]
    refine ⟨⟨⟨c2, hnl⟩, c4⟩, ?_, c10⟩
    split
    · simp only [List.forall_mem_append]
      exact ⟨⟨c6, hnl⟩, c7⟩
    · exact c9
  · simp only [rawSizeKey, List.forall_mem_append]
    refine ⟨⟨⟨c1, hnl⟩, c5⟩, ?_, c10⟩
    split
    · simp only [List.forall_mem_append]
      exact ⟨⟨c6, hnl⟩, c8⟩
    · exact fmtD_natCast_no_break _

/-! ## The declarations read back -/

theorem dropHead_semicolon_size (pfx : String) : dropHead (sizeKey pfx) [';'] = none := rfl

theorem dropHead_semicolon_rawData (pfx : String) : dropHead (rawDataKey pfx) [';'] = none := rfl

theorem dropHead_semicolon_rawSize (pfx : String) : dropHead (rawSizeKey pfx) [';'] = none := rfl

/-- The line of `size_` does not begin like the line of `raw_data_`. -/
theorem dropHead_rawData_size (pfx : String) (rest : List Char) :
    dropHead (rawDataKey pfx) (sizeKey pfx ++ rest) = none := rfl

/-- The line of `raw_data_` does not begin like the line of `raw_size_`. -/
theorem dropHead_rawSize_rawData (pfx : String) (rest : List Char) :
    dropHead (rawSizeKey pfx) (rawDataKey pfx ++ rest) = none := rfl

/-- The line of `size_` does not begin like the line of `raw_size_`. -/
theorem dropHead_rawSize_size (pfx : String) (rest : List Char) :
    dropHead (rawSizeKey pfx) (sizeKey pfx ++ rest) = none := by
  unfold rawSizeKey sizeKey
  simp only [List.append_assoc]
  rw [dropHead_append, dropHead_append]
  rfl

/-- The integer read back as `size_` from what the three-argument `WriteData`
prints is the length of the selected buffer. -/
theorem readSize_WriteDataText (omitFlag : Bool) (pfx : String) (hid : isIdentifierText pfx)
    (B : List CChar) (ptr : DataPtr) :
    readSize pfx (WriteDataText omitFlag pfx B ptr) = some (ptr.deref B).length := by
  unfold readSize
  rw [declarationLines_WriteDataText omitFlag pfx hid,
    findInitializer_skip _ _ _ (dropHead_semicolon_size pfx), findInitializer_here]
  simp only
  rw [fmtD_natCast, parseDecimal_fmtU_nat]

theorem alias_ne_null (pfx : String) (name : List Char) :
    "Snapshot::".toList ++ pfx.toList ++ name ≠ "NULL".toList := by
  intro h
  have h1 : ("Snapshot::".toList ++ pfx.toList ++ name).head? = some 'S' := rfl
  have h2 : "NULL".toList.head? = some 'N' := rfl
  have := congrArg List.head? h
  rw [h1, h2] at this
  exact absurd (Option.some.inj this) (by decide)

theorem fmtU_ne_alias (n : Nat) (pfx : String) (name : List Char) :
    fmtU n ≠ "Snapshot::".toList ++ pfx.toList ++ name := by
  intro h
  have hmem : 'S' ∈ fmtU n := by
    rw [h]
    exact List.mem_append_left _ (List.mem_append_left _ (by decide))
  exact absurd (fmtU_isDigit n _ hmem) (by decide)

/-- What is read back as `raw_data_` from what the three-argument `WriteData`
prints: `data_` in the alias branch, `NULL` otherwise. -/
theorem readRawData_WriteDataText (omitFlag : Bool) (pfx : String)
    (hid : isIdentifierText pfx) (B : List CChar) (ptr : DataPtr) :
    readRawData pfx (WriteDataText omitFlag pfx B ptr) =
      some (if ptr = DataPtr.source_data ∧ (!omitFlag) = true then RawData.data
        else RawData.null) := by
  unfold readRawData
  rw [declarationLines_WriteDataText omitFlag pfx hid,
    findInitializer_skip _ _ _ (dropHead_semicolon_rawData pfx),
    findInitializer_skip _ _ _ (dropHead_rawData_size pfx _), findInitializer_here]
  by_cases halias : ptr = DataPtr.source_data ∧ (!omitFlag) = true
  · simp only [if_pos halias]
    rw [if_neg (alias_ne_null pfx _)]
    simp only [if_true]
  · simp only [if_neg halias, if_true]

/-- What is read back as `raw_size_` from what the three-argument `WriteData`
prints: `size_` in the alias branch, the length of the source buffer
otherwise. -/
theorem readRawSize_WriteDataText (omitFlag : Bool) (pfx : String)
    (hid : isIdentifierText pfx) (B : List CChar) (ptr : DataPtr) :
    readRawSize pfx (WriteDataText omitFlag pfx B ptr) =
      some (if ptr = DataPtr.source_data ∧ (!omitFlag) = true then RawSize.size
        else RawSize.literal B.length) := by
  unfold readRawSize
  rw [declarationLines_WriteDataText omitFlag pfx hid,
    findInitializer_skip _ _ _ (dropHead_semicolon_rawSize pfx),
    findInitializer_skip _ _ _ (dropHead_rawSize_size pfx _),
    findInitializer_skip _ _ _ (dropHead_rawSize_rawData pfx _), findInitializer_here]
  by_cases halias : ptr = DataPtr.source_data ∧ (!omitFlag) = true
  · simp only [if_pos halias, if_true]
  · simp only [if_neg halias]
    rw [fmtD_natCast, if_neg (fmtU_ne_alias _ pfx _), parseDecimal_fmtU_nat]
    rfl

/-- The value the declaration of `raw_size_` denotes in what the
three-argument `WriteData` prints is the length of the source buffer. -/
theorem rawSizeValue_WriteDataText (omitFlag : Bool) (pfx : String)
    (hid : isIdentifierText pfx) (B : List CChar) (ptr : DataPtr) :
    rawSizeValue pfx (WriteDataText omitFlag pfx B ptr) = some B.length := by
  unfold rawSizeValue
  rw [readRawSize_WriteDataText omitFlag pfx hid]
  by_cases halias : ptr = DataPtr.source_data ∧ (!omitFlag) = true
  · simp only [if_pos halias]
    rw [readSize_WriteDataText omitFlag pfx hid, halias.1]
    rfl
  · simp only [if_neg halias]

/-- The text a returning `WriteData` has appended is what the three-argument
`WriteData` prints for the selected buffer. -/
theorem appendedText_WriteData {σ : Type} (wr : SnapshotWriter σ) (pfx : String)
    (B : List CChar) (rf : Option Handle) (w w1 : World σ)
    (hd : WriteData wr pfx B rf w = .done w1) :
    appendedText w w1 = WriteDataText wr.omit_ pfx B (dataToBeWritten wr B w) := by
  unfold appendedText
  rw [(WriteData_done wr pfx B rf w w1 hd).1, List.drop_left]

/-! ## The declared sizes -/

theorem isIdentifierText_empty : isIdentifierText "" :=
  fun _ h => by cases h

theorem isIdentifierText_context : isIdentifierText "context_" := by
  unfold isIdentifierText
  decide

/-- C4: with omission off, whenever `WriteData` returns (no compressor, or a
compressor that succeeded), the integer read back from the declaration of
`size_` in the text it has appended equals the number of literal entries read
back from between the braces of the table; without a compressor both are the
length of the source buffer (and the entries are its bytes), with a compressor
both are the length of the compressor's output (and the entries are the bytes
of that output). -/
theorem size_is_entry_count {σ : Type} (wr : SnapshotWriter σ) (ho : wr.omit_ = false)
    (pfx : String) (hid : isIdentifierText pfx) (B : List CChar) (rf : Option Handle)
    (w w1 : World σ) (hd : WriteData wr pfx B rf w = .done w1) :
    (tableEntries (betweenBraces (appendedText w w1))).map List.length =
      readSize pfx (appendedText w w1) ∧
    (wr.compressor_ = none →
      readSize pfx (appendedText w w1) = some B.length ∧
      tableEntries (betweenBraces (appendedText w w1)) = some (B.map toUChar)) ∧
    (∀ c, wr.compressor_ = some c →
      (c.Compress w.comp B).1 = true ∧
      readSize pfx (appendedText w w1) = some (c.output (c.Compress w.comp B).2).length ∧
      tableEntries (betweenBraces (appendedText w w1)) =
        some ((c.output (c.Compress w.comp B).2).map toUChar)) := by
  have hok := (WriteData_done wr pfx B rf w w1 hd).2.2
  have hp := (isIdentifierText_chars pfx hid).1
  rw [appendedText_WriteData wr pfx B rf w w1 hd, ho, readSize_WriteDataText false pfx hid,
    betweenBraces_WriteDataText pfx hp, tableEntries_WriteSnapshotData]
  refine ⟨by simp, fun hc => ?_, fun c hc => ⟨hok c hc, ?_⟩⟩
  · rw [dataToBeWritten_none wr B w hc]
    exact ⟨rfl, rfl⟩
  · rw [dataToBeWritten_some wr B w c hc]
    exact ⟨rfl, rfl⟩

/-- C4 at a concrete run: 40 source bytes compressed to 30 bytes give
`size_ = 30` and 30 entries in the table. -/
theorem size_is_entry_count_witness :
    (plainWriter (some thirtyCompressor) false).omit_ = false ∧
    isIdentifierText "" ∧
    WriteData (plainWriter (some thirtyCompressor) false) "" fortyBytes none emptyWorld =
      .done thirtyWorld ∧
    readSize "" (appendedText emptyWorld thirtyWorld) = some 30 ∧
    (tableEntries (betweenBraces (appendedText emptyWorld thirtyWorld))).map List.length =
      some 30 :=
  ⟨rfl, isIdentifierText_empty, rfl,
    ((size_is_entry_count (plainWriter (some thirtyCompressor) false) rfl ""
      isIdentifierText_empty fortyBytes none emptyWorld thirtyWorld rfl).2.2
      thirtyCompressor rfl).2.1,
    (size_is_entry_count (plainWriter (some thirtyCompressor) false) rfl ""
      isIdentifierText_empty fortyBytes none emptyWorld thirtyWorld rfl).1.trans
    ((size_is_entry_count (plainWriter (some thirtyCompressor) false) rfl ""
      isIdentifierText_empty fortyBytes none emptyWorld thirtyWorld rfl).2.2
      thirtyCompressor rfl).2.1⟩

/-- C5: with omission off, whenever `WriteData` returns, the declarations read
back from the text it has appended are: without a compressor, `raw_data_`
declared as `data_` and `raw_size_` as `size_`, with `size_` the length of the
source buffer; with a compressor (which has succeeded), `raw_data_` declared
as `NULL` and `raw_size_` as the number that is the length of the source
buffer, with `size_` the length of the compressor's output. So `raw_data_` is
declared as `data_` (and `raw_size_` as `size_`) if and only if no compressor
is configured. -/
theorem raw_alias_iff_no_compressor {σ : Type} (wr : SnapshotWriter σ)
    (ho : wr.omit_ = false) (pfx : String) (hid : isIdentifierText pfx) (B : List CChar)
    (rf : Option Handle) (w w1 : World σ) (hd : WriteData wr pfx B rf w = .done w1) :
    (wr.compressor_ = none →
      readRawData pfx (appendedText w w1) = some RawData.data ∧
      readRawSize pfx (appendedText w w1) = some RawSize.size ∧
      readSize pfx (appendedText w w1) = some B.length) ∧
    (∀ c, wr.compressor_ = some c →
      (c.Compress w.comp B).1 = true ∧
      readRawData pfx (appendedText w w1) = some RawData.null ∧
      readRawSize pfx (appendedText w w1) = some (RawSize.literal B.length) ∧
      readSize pfx (appendedText w w1) = some (c.output (c.Compress w.comp B).2).length) ∧
    (readRawData pfx (appendedText w w1) = some RawData.data ↔ wr.compressor_ = none) ∧
    (readRawSize pfx (appendedText w w1) = some RawSize.size ↔ wr.compressor_ = none) := by
  have hok := (WriteData_done wr pfx B rf w w1 hd).2.2
  rw [appendedText_WriteData wr pfx B rf w w1 hd, ho, readSize_WriteDataText false pfx hid,
    readRawData_WriteDataText false pfx hid, readRawSize_WriteDataText false pfx hid]
  cases hc : wr.compressor_ with
  | none =>
    rw [dataToBeWritten_none wr B w hc]
    simp [DataPtr.deref]
  | some c =>
    rw [dataToBeWritten_some wr B w c hc]
    refine ⟨fun h => Option.noConfusion h, fun c1 hc1 => ?_, by simp, by simp⟩
    injection hc1 with hc1
    subst hc1
    exact ⟨hok c hc, by simp, by simp, rfl⟩

/-- C5 at the two runs of the specification: 40 source bytes without
compression give `size_ = 40`, `raw_data_` declared as `data_` and `raw_size_`
as `size_`; the same bytes compressed to 30 bytes give `size_ = 30`,
`raw_data_ = NULL` and `raw_size_ = 40`. -/
theorem raw_alias_iff_no_compressor_witness :
    ((plainWriter none false).omit_ = false ∧ isIdentifierText "" ∧
      WriteData (plainWriter none false) "" fortyBytes none emptyWorld = .done fortyWorld ∧
      readRawData "" (appendedText emptyWorld fortyWorld) = some RawData.data ∧
      readRawSize "" (appendedText emptyWorld fortyWorld) = some RawSize.size ∧
      readSize "" (appendedText emptyWorld fortyWorld) = some 40) ∧
    (WriteData (plainWriter (some thirtyCompressor) false) "" fortyBytes none emptyWorld =
        .done thirtyWorld ∧
      readRawData "" (appendedText emptyWorld thirtyWorld) = some RawData.null ∧
      readRawSize "" (appendedText emptyWorld thirtyWorld) = some (RawSize.literal 40) ∧
      readSize "" (appendedText emptyWorld thirtyWorld) = some 30) :=
  ⟨⟨rfl, isIdentifierText_empty, rfl,
    (raw_alias_iff_no_compressor (plainWriter none false) rfl "" isIdentifierText_empty
      fortyBytes none emptyWorld fortyWorld rfl).1 rfl⟩,
   ⟨rfl,
    ((raw_alias_iff_no_compressor (plainWriter (some thirtyCompressor) false) rfl ""
      isIdentifierText_empty fortyBytes none emptyWorld thirtyWorld rfl).2.1
      thirtyCompressor rfl).2⟩⟩

/-- C6: whenever `WriteData` returns (omission on or off, no compressor or a
compressor that succeeded), the value that the declaration of `raw_size_` in
the text it has appended denotes (the number it is declared with, or, when it
is declared as `size_`, the number `size_` is declared with) is the length of
the source buffer. -/
theorem raw_size_is_source_length {σ : Type} (wr : SnapshotWriter σ) (pfx : String)
    (hid : isIdentifierText pfx) (B : List CChar) (rf : Option Handle) (w w1 : World σ)
    (hd : WriteData wr pfx B rf w = .done w1) :
    rawSizeValue pfx (appendedText w w1) = some B.length := by
  rw [appendedText_WriteData wr pfx B rf w w1 hd]
  exact rawSizeValue_WriteDataText _ pfx hid B _

/-- C6 at two concrete runs of 40 source bytes: compressed to 30 bytes with
omission on, `raw_size_` is declared as the number 40; without compressor and
omission off it is declared as `size_`, which is declared as 40. -/
theorem raw_size_is_source_length_witness :
    isIdentifierText "" ∧
    (WriteData (plainWriter (some thirtyCompressor) true) "" fortyBytes none emptyWorld =
        .done omitThirtyWorld ∧
      rawSizeValue "" (appendedText emptyWorld omitThirtyWorld) = some 40) ∧
    (WriteData (plainWriter none false) "" fortyBytes none emptyWorld = .done fortyWorld ∧
      rawSizeValue "" (appendedText emptyWorld fortyWorld) = some 40) :=
  ⟨isIdentifierText_empty,
   ⟨rfl, raw_size_is_source_length (plainWriter (some thirtyCompressor) true) ""
      isIdentifierText_empty fortyBytes none emptyWorld omitThirtyWorld rfl⟩,
   ⟨rfl, raw_size_is_source_length (plainWriter none false) ""
      isIdentifierText_empty fortyBytes none emptyWorld fortyWorld rfl⟩⟩

/-- C7: with omission on, whenever `WriteData` returns, with or without a
compressor: nothing but a line break stands between the braces of the table,
so it has no literal entries; `raw_data_` is read back as `NULL` and
`raw_size_` as the number that is the length of the source buffer; and `size_`
is read back as the length of the selected buffer, the source buffer without a
compressor and the compressor's output with one. -/
theorem omit_prints_sizes_only {σ : Type} (wr : SnapshotWriter σ) (ho : wr.omit_ = true)
    (pfx : String) (hid : isIdentifierText pfx) (B : List CChar) (rf : Option Handle)
    (w w1 : World σ) (hd : WriteData wr pfx B rf w = .done w1) :
    betweenBraces (appendedText w w1) = ['\n'] ∧
    tableEntries (betweenBraces (appendedText w w1)) = some [] ∧
    readRawData pfx (appendedText w w1) = some RawData.null ∧
    readRawSize pfx (appendedText w w1) = some (RawSize.literal B.length) ∧
    (wr.compressor_ = none → readSize pfx (appendedText w w1) = some B.length) ∧
    (∀ c, wr.compressor_ = some c →
      (c.Compress w.comp B).1 = true ∧
      readSize pfx (appendedText w w1) =
        some (c.output (c.Compress w.comp B).2).length) := by
  have hok := (WriteData_done wr pfx B rf w w1 hd).2.2
  have hp := (isIdentifierText_chars pfx hid).1
  rw [appendedText_WriteData wr pfx B rf w w1 hd, ho, readSize_WriteDataText true pfx hid,
    readRawData_WriteDataText true pfx hid, readRawSize_WriteDataText true pfx hid,
    betweenBraces_WriteDataText_omit pfx hp]
  refine ⟨rfl, rfl, by simp, by simp, fun hc => ?_, fun c hc => ⟨hok c hc, ?_⟩⟩
  · rw [dataToBeWritten_none wr B w hc]
    rfl
  · rw [dataToBeWritten_some wr B w c hc]
    rfl

/-- C7 at a concrete run: 40 source bytes for the context stream, no
compressor, omission on. -/
theorem omit_prints_sizes_only_witness :
    (plainWriter none true).omit_ = true ∧ isIdentifierText "context_" ∧
    WriteData (plainWriter none true) "context_" fortyBytes none emptyWorld =
      .done omitWorld ∧
    betweenBraces (appendedText emptyWorld omitWorld) = ['\n'] ∧
    tableEntries (betweenBraces (appendedText emptyWorld omitWorld)) = some [] ∧
    readRawData "context_" (appendedText emptyWorld omitWorld) = some RawData.null ∧
    readRawSize "context_" (appendedText emptyWorld omitWorld) = some (RawSize.literal 40) ∧
    readSize "context_" (appendedText emptyWorld omitWorld) = some 40 :=
  ⟨rfl, isIdentifierText_context, rfl,
    (omit_prints_sizes_only (plainWriter none true) rfl "context_"
      isIdentifierText_context fortyBytes none emptyWorld omitWorld rfl).1,
    (omit_prints_sizes_only (plainWriter none true) rfl "context_"
      isIdentifierText_context fortyBytes none emptyWorld omitWorld rfl).2.1,
    (omit_prints_sizes_only (plainWriter none true) rfl "context_"
      isIdentifierText_context fortyBytes none emptyWorld omitWorld rfl).2.2.1,
    (omit_prints_sizes_only (plainWriter none true) rfl "context_"
      isIdentifierText_context fortyBytes none emptyWorld omitWorld rfl).2.2.2.1,
    (omit_prints_sizes_only (plainWriter none true) rfl "context_"
      isIdentifierText_context fortyBytes none emptyWorld omitWorld rfl).2.2.2.2.1
      rfl⟩

/-! ## What the raw files of `main` receive -/

end Mksnapshot
